import Mathlib

/-!
Shallow embedding of the multi-state sampling and free-energy estimation
pipeline of the timemachine repository (`timemachine/fe/free_energy.py` and
`timemachine/fe/rbfe.py`), together with theorems settling the frozen claims
about it.

Coordinates and boxes are abstract type parameters `X` and `B` (the pipeline
never inspects their contents, it only moves them around).  Energies are
rationals.  The external MD engine (`timemachine.lib.custom_ops`, not part of
the excerpted sources) is modelled, per the spec's external-interface
contract, as a deterministic step function carried by each `InitialState`;
`multiple_steps_U` advances that step function and stores a frame every
`store_x_interval` steps.  Fallible Python code (assertions, raised
exceptions) is modelled with `Option` / `Except`.
-/

/-- State of the external MD engine context: current coordinates, velocities
and periodic box.  Models the mutable state of `custom_ops.Context`. -/
structure EngState (X B : Type) where
  x : X
  v : X
  box : B

/-- Advance the engine `n` steps.  Modelled from the spec: the
integrator/barostat engine is a black-box "advance state" capability that is
deterministic given the seeds stored in the initial state. -/
def runSteps {X B : Type} (step : EngState X B → EngState X B) : Nat → EngState X B → EngState X B
  | 0, s => s
  | n + 1, s => runSteps step n (step s)

/-- Modelled from the spec: `Context.multiple_steps_U` of the external engine
(`timemachine.lib.custom_ops`, not under src/).  Advances the state `nSteps`
steps and returns the final state together with the coordinate frames and
boxes stored every `interval` steps (an interval of `0` stores nothing, as in
the burn-in calls). -/
def multipleStepsU {X B : Type} (step : EngState X B → EngState X B) (s : EngState X B)
    (nSteps interval : Nat) : EngState X B × List X × List B :=
  let stored := if interval = 0 then [] else
    (List.range (nSteps / interval)).map (fun j => runSteps step ((j + 1) * interval) s)
  (runSteps step nSteps s, stored.map (·.x), stored.map (·.box))

/-- Modelled from the spec: construction of a fresh `custom_ops.Context`.  The
context state is initialized solely from the initial coordinates, velocities
and box; the `world` argument models the identity of the invocation (fresh
allocation) and is demonstrably unused. -/
def mkContext {X B : Type} (world : Nat) (x0 v0 : X) (box0 : B) : EngState X B :=
  let _ := world
  ⟨x0, v0, box0⟩

namespace FreeEnergy

/-- `MDParams` from `timemachine/fe/free_energy.py`. -/
structure MDParams where
  n_frames : Nat
  n_eq_steps : Nat
  steps_per_frame : Nat

/-- `InitialState` from `timemachine/fe/free_energy.py`.  The bound potential
terms are modelled by their energy evaluation functions; the integrator and
optional barostat (external `impl` objects) are modelled by the deterministic
engine step function they induce, per the spec's engine contract. -/
structure InitialState (X B : Type) where
  potentials : List (X → B → ℚ)
  step : EngState X B → EngState X B
  barostat : Bool
  x0 : X
  v0 : X
  box0 : B
  lamb : ℚ
  ligand_idxs : List Nat

/-- `batches` from `timemachine/fe/free_energy.py`:

```python
def batches(n, batch_size):
    assert n >= 0
    assert batch_size > 0
    quot, rem = divmod(n, batch_size)
    for _ in range(quot):
        yield batch_size
    if rem:
        yield rem
```

`none` models a failed assertion (raised once the generator is advanced). -/
def batches (n batch_size : Int) : Option (List Int) :=
  if n < 0 then none
  else if batch_size ≤ 0 then none
  else
    let quot := n.toNat / batch_size.toNat
    let rem := n.toNat % batch_size.toNat
    some (List.replicate quot batch_size ++ if rem ≠ 0 then [(rem : Int)] else [])

/-- `sample` from `timemachine/fe/free_energy.py`.  The `world` argument
models the identity of the invocation (the freshly constructed `Context` and
`impl` objects); `isFinite` models `np.isfinite` on a frame.  `none` models a
raised `AssertionError` (non-finite coordinates after equilibration, a frame
count mismatch, or non-finite production coordinates; an out-of-range
`all_coords[-1]` access is likewise a raised error).  When `max_buffer_frames`
is truthy the production run is split into `batches` appended to a streaming
`StoredArrays` container, modelled by list append; the engine context is
threaded through the batches. -/
def extendBatch {X B : Type} (step : EngState X B → EngState X B) (spf : Nat)
    (acc : EngState X B × List X × List B) (b : Int) : EngState X B × List X × List B :=
  let r := multipleStepsU step acc.1 (b.toNat * spf) spf
  (r.1, acc.2.1 ++ r.2.1, acc.2.2 ++ r.2.2)

/-- The production phase of `sample`: either one contiguous
`run_production_steps` call or the `batches`-split streaming loop (the engine
context is threaded through the batches; `StoredArrays.extend` /
`all_boxes_.extend` are list appends). -/
def sampleProduction {X B : Type} (step : EngState X B → EngState X B) (n_frames spf : Nat)
    (max_buffer_frames : Option Nat) (ctxt1 : EngState X B) :
    Option (EngState X B × List X × List B) :=
  match max_buffer_frames with
  | some k =>
    if k ≠ 0 then
      match batches (n_frames : Int) (k : Int) with
      | some bs => some (bs.foldl (extendBatch step spf) (ctxt1, [], []))
      | none => none
    else some (multipleStepsU step ctxt1 (n_frames * spf) spf)
  | none => some (multipleStepsU step ctxt1 (n_frames * spf) spf)

/-- The final assertions of `sample`: both stored lengths must equal
`n_frames` and the last recorded frame must be finite (an out-of-range
`all_coords[-1]` access on an empty trajectory is likewise a raised error). -/
def finishSample {X B : Type} (isFinite : X → Bool) (n_frames : Nat) :
    Option (EngState X B × List X × List B) → Option (List X × List B)
  | none => none
  | some (_, all_coords, all_boxes) =>
    if all_coords.length = n_frames ∧ all_boxes.length = n_frames then
      match all_coords.getLast? with
      | some c => if isFinite c then some (all_coords, all_boxes) else none
      | none => none
    else none

def sampleRun {X B : Type} (world : Nat) (isFinite : X → Bool) (initial_state : InitialState X B)
    (md_params : MDParams) (max_buffer_frames : Option Nat) : Option (List X × List B) :=
  let ctxt0 := mkContext world initial_state.x0 initial_state.v0 initial_state.box0
  let ctxt1 := (multipleStepsU initial_state.step ctxt0 md_params.n_eq_steps 0).1
  if isFinite ctxt1.x then
    finishSample isFinite md_params.n_frames
      (sampleProduction initial_state.step md_params.n_frames md_params.steps_per_frame
        max_buffer_frames ctxt1)
  else none

/-- `sample` as called by the pipeline (a single anonymous invocation). -/
def sample {X B : Type} (isFinite : X → Bool) (initial_state : InitialState X B)
    (md_params : MDParams) (max_buffer_frames : Option Nat) : Option (List X × List B) :=
  sampleRun 0 isFinite initial_state md_params max_buffer_frames

end FreeEnergy

namespace Rbfe

/-- `SimulationProtocol` from `timemachine/fe/rbfe.py`. -/
structure SimulationProtocol where
  n_frames : Nat
  burn_in : Nat
  steps_per_frame : Nat

/-- `InitialState` from `timemachine/fe/rbfe.py`.  The bound potentials are
modelled by their energy evaluation functions `(x, box, lamb) → U`; the
integrator and barostat (mandatory here) are modelled by the deterministic
engine step function they induce. -/
structure InitialState (X B : Type) where
  potentials : List (X → B → ℚ → ℚ)
  step : EngState X B → EngState X B
  x0 : X
  v0 : X
  box0 : B
  lamb : ℚ

/-- `sample` from `timemachine/fe/rbfe.py`.  It runs burn-in then production
and asserts only the stored frame counts; it performs no finiteness check.
`none` models a failed frame-count assertion. -/
def sampleRun {X B : Type} (world : Nat) (initial_state : InitialState X B)
    (protocol : SimulationProtocol) : Option (List X × List B) :=
  let ctxt0 := mkContext world initial_state.x0 initial_state.v0 initial_state.box0
  let ctxt1 := (multipleStepsU initial_state.step ctxt0 protocol.burn_in 0).1
  let r := multipleStepsU initial_state.step ctxt1
    (protocol.n_frames * protocol.steps_per_frame) protocol.steps_per_frame
  if r.2.1.length = protocol.n_frames ∧ r.2.2.length = protocol.n_frames then
    some (r.2.1, r.2.2)
  else none

/-- `rbfe.sample` as called by the pipeline (a single anonymous invocation). -/
def sample {X B : Type} (initial_state : InitialState X B) (protocol : SimulationProtocol) :
    Option (List X × List B) :=
  sampleRun 0 initial_state protocol

end Rbfe

/-- The identity engine dynamics on integer coordinates/boxes, used for
concrete evaluations. -/
def idStep : EngState Int Int → EngState Int Int := id

/-- A concrete finiteness predicate on integer coordinates: negative values
play the role of non-finite (`nan`) frames. -/
def nonneg : Int → Bool := fun x => decide (0 ≤ x)

/-- A concrete `free_energy.InitialState` whose coordinates are "non-finite"
from the start. -/
def probeFE : FreeEnergy.InitialState Int Int :=
  ⟨[], idStep, false, -1, 0, 0, 0, []⟩

/-- A concrete `rbfe.InitialState` with the same "non-finite" dynamics as
`probeFE`. -/
def probeRbfe : Rbfe.InitialState Int Int :=
  ⟨[], idStep, -1, 0, 0, 0⟩

/-- A concrete well-behaved `free_energy.InitialState` for witnesses. -/
def okFE : FreeEnergy.InitialState Int Int :=
  ⟨[fun _ _ => 0], idStep, true, 5, 0, 0, 0, []⟩

/-- Modelled from the spec: `BOLTZ` from `timemachine.constants` (not under
src/), the Boltzmann constant in kJ/(mol·K). -/
def BOLTZ : ℚ := 8314462618 / 1000000000000

/-- Modelled from the spec: `DEFAULT_TEMP` from `timemachine.constants` (not
under src/), 300 K. -/
def DEFAULT_TEMP : ℚ := 300

namespace FreeEnergy

/-- Modelled from the spec: `EnergyDecomposedState` from
`timemachine.fe.energy_decomposition` (not under src/): a trajectory plus a
list of per-potential-term batched reduced-energy evaluators. -/
structure EnergyDecomposedState (X B : Type) where
  frames : List X
  boxes : List B
  batch_u_fns : List (List X → List B → List ℚ)

/-- Modelled from the spec: `get_batch_u_fns(bound_impls, temperature)` from
`timemachine.fe.energy_decomposition` (not under src/): converts the bound
potential energy evaluators into batched reduced-energy functions,
`u(x) = β·U(x)` with `β = 1/(BOLTZ·temperature)`. -/
def get_batch_u_fns {X B : Type} (Us : List (X → B → ℚ)) (temperature : ℚ) :
    List (List X → List B → List ℚ) :=
  Us.map (fun U => fun xs boxes =>
    (xs.zip boxes).map (fun xb => (1 / (BOLTZ * temperature)) * U xb.1 xb.2))

/-- A per-component `u_kln` tensor for one adjacent pair, laid out
[energy-function index ∈ {A,B}] × [sampled-state index ∈ {A,B}] × frame. -/
abbrev UKln := List (List (List ℚ))

/-- Modelled from the spec: `compute_energy_decomposed_u_kln(state_pair)`
from `timemachine.fe.energy_decomposition` (not under src/), per spec §4.3:
for each energy-term component (the two states' term lists correspond
positionally) evaluate that component's reduced energy of each state's
frames under both states' potentials, giving a 2×2×n_frames tensor per
component. -/
def compute_energy_decomposed_u_kln {X B : Type} :
    List (EnergyDecomposedState X B) → List UKln
  | [sA, sB] =>
    (sA.batch_u_fns.zip sB.batch_u_fns).map (fun uAB =>
      [[uAB.1 sA.frames sA.boxes, uAB.1 sB.frames sB.boxes],
       [uAB.2 sA.frames sA.boxes, uAB.2 sB.frames sB.boxes]])
  | _ => []

/-- Accumulator of `run_sequential_sims_given_initial_states`: the retained
trajectories, the sliding `tmp_states` list, and the per-pair decomposed
`u_kln` tensors. -/
structure SeqAcc (X B : Type) where
  stored_frames : List (List X)
  stored_boxes : List (List B)
  tmp_states : List (Option (EnergyDecomposedState X B))
  u_kln_by_component_by_lambda : List (List UKln)

/-- The loop of `run_sequential_sims_given_initial_states`.  Besides the
result (`none` models an uncaught exception aborting the loop), it returns a
ghost trace recording `tmp_states` after each of the two mutation points of
an iteration: after the `tmp_states[lamb_idx - 2] = None` eviction line and
after the `tmp_states[lamb_idx] = EnergyDecomposedState(...)` assignment. -/
def runSeqLoop {X B : Type} (isFinite : X → Bool) (md_params : MDParams) (temperature : ℚ)
    (keep_idxs : List Int) :
    Nat → SeqAcc X B → List (InitialState X B) →
      Option (SeqAcc X B) × List (List (Option (EnergyDecomposedState X B)))
  | _, acc, [] => (some acc, [])
  | lamb_idx, acc, initial_state :: rest =>
    match sample isFinite initial_state md_params none with
    | none => (none, [])
    | some (cur_frames, cur_boxes) =>
      let acc1 : SeqAcc X B :=
        if (lamb_idx : Int) ∈ keep_idxs then
          { acc with stored_frames := acc.stored_frames ++ [cur_frames],
                     stored_boxes := acc.stored_boxes ++ [cur_boxes] }
        else acc
      let ts1 := if 2 ≤ lamb_idx then acc1.tmp_states.set (lamb_idx - 2) none
        else acc1.tmp_states
      let cur_batch_U_fns := get_batch_u_fns initial_state.potentials temperature
      let ts2 := ts1.set lamb_idx (some ⟨cur_frames, cur_boxes, cur_batch_U_fns⟩)
      let acc2 := { acc1 with tmp_states := ts2 }
      if 0 < lamb_idx then
        match ts2.getD (lamb_idx - 1) none, ts2.getD lamb_idx none with
        | some prev_state, some cur_state =>
          let acc3 := { acc2 with u_kln_by_component_by_lambda :=
            acc2.u_kln_by_component_by_lambda ++
              [compute_energy_decomposed_u_kln [prev_state, cur_state]] }
          let r := runSeqLoop isFinite md_params temperature keep_idxs (lamb_idx + 1) acc3 rest
          (r.1, ts1 :: ts2 :: r.2)
        | _, _ => (none, [ts1, ts2])
      else
        let r := runSeqLoop isFinite md_params temperature keep_idxs (lamb_idx + 1) acc2 rest
        (r.1, ts1 :: ts2 :: r.2)
termination_by structural _ _ l => l

/-- `run_sequential_sims_given_initial_states` from
`timemachine/fe/free_energy.py`, with the ghost `tmp_states` trace.  The
initial `tmp_states` is `[None] * len(initial_states)`; a nonempty
`keep_idxs` must be all nonnegative (assertion). -/
def run_sequential_sims_trace {X B : Type} (isFinite : X → Bool)
    (initial_states : List (InitialState X B)) (md_params : MDParams) (temperature : ℚ)
    (keep_idxs : List Int) :
    Option (List (List UKln) × List (List X) × List (List B)) ×
      List (List (Option (EnergyDecomposedState X B))) :=
  if keep_idxs ≠ [] ∧ keep_idxs.any (fun i => decide (i < 0)) then (none, [])
  else
    let r := runSeqLoop isFinite md_params temperature keep_idxs 0
      ⟨[], [], List.replicate initial_states.length none, []⟩ initial_states
    (r.1.map (fun acc =>
      (acc.u_kln_by_component_by_lambda, acc.stored_frames, acc.stored_boxes)), r.2)

/-- `run_sequential_sims_given_initial_states`, result only. -/
def run_sequential_sims_given_initial_states {X B : Type} (isFinite : X → Bool)
    (initial_states : List (InitialState X B)) (md_params : MDParams) (temperature : ℚ)
    (keep_idxs : List Int) :
    Option (List (List UKln) × List (List X) × List (List B)) :=
  (run_sequential_sims_trace isFinite initial_states md_params temperature keep_idxs).1

/-- Pointwise sum of the per-component `u_kln` tensors:
`u_kln_by_component.sum(0)`. -/
def addUkln (a b : UKln) : UKln :=
  List.zipWith (List.zipWith (List.zipWith (· + ·))) a b

/-- `u_kln_by_component.sum(0)` over a nonempty component list. -/
def sumComponents : List UKln → UKln
  | [] => []
  | c :: cs => cs.foldl addUkln c

/-- Entry `u_kln[k, l]` of a pair tensor. -/
def uklnEntry (u : UKln) (k l : Nat) : List ℚ :=
  (u.getD k []).getD l []

/-- `w_fwd = u_kln[1, 0] - u_kln[0, 0]` from
`estimate_free_energy_given_initial_states`. -/
def w_fwd (u : UKln) : List ℚ :=
  List.zipWith (· - ·) (uklnEntry u 1 0) (uklnEntry u 0 0)

/-- `w_rev = u_kln[0, 1] - u_kln[1, 1]` from
`estimate_free_energy_given_initial_states`. -/
def w_rev (u : UKln) : List ℚ :=
  List.zipWith (· - ·) (uklnEntry u 0 1) (uklnEntry u 1 1)

/-- `SimulationResult` from `timemachine/fe/free_energy.py` (the rendered
figure byte strings are omitted: pure I/O artifacts). -/
structure SimulationResult (X B : Type) where
  all_dGs : List ℚ
  all_errs : List ℚ
  dG_errs_by_lambda_by_component : List (List ℚ)
  overlaps_by_lambda : List ℚ
  overlaps_by_lambda_by_component : List (List ℚ)
  frames : List (List X)
  boxes : List (List B)
  initial_states : List (InitialState X B)
  md_params : MDParams

/-- `estimate_free_energy_given_initial_states` from
`timemachine/fe/free_energy.py`.  The external estimator
`bar_with_bootstrapped_uncertainty` and the diagnostic functions
`df_err_from_ukln` / `pair_overlap_from_ukln` (from `timemachine.fe.bar`,
not under src/) are abstract function parameters.  Figure generation and
printing are omitted (pure I/O).  The source computes `overlaps_by_lambda`
from `ukln_by_lambda_by_component.sum(axis=0)`, i.e. the component-summed
tensor of each pair. -/
def estimate_free_energy_given_initial_states {X B : Type}
    (bar_with_bootstrapped_uncertainty : List ℚ → List ℚ → ℚ × ℚ)
    (df_err_from_ukln : UKln → ℚ) (pair_overlap_from_ukln : UKln → ℚ)
    (isFinite : X → Bool) (initial_states : List (InitialState X B)) (md_params : MDParams)
    (temperature : ℚ) (keep_idxs : List Int) : Option (SimulationResult X B) :=
  match run_sequential_sims_given_initial_states isFinite initial_states md_params
      temperature keep_idxs with
  | none => none
  | some (u_kln_by_component_by_lambda, stored_frames, stored_boxes) =>
    let beta := 1 / (BOLTZ * temperature)
    let pairBAR := u_kln_by_component_by_lambda.map (fun u_kln_by_component =>
      let u_kln := sumComponents u_kln_by_component
      let dfPair := bar_with_bootstrapped_uncertainty (w_fwd u_kln) (w_rev u_kln)
      (dfPair.1 / beta, dfPair.2 / beta))
    let all_dGs := pairBAR.map Prod.fst
    let all_errs := pairBAR.map Prod.snd
    let ukln_by_lambda_by_component := u_kln_by_component_by_lambda.transpose
    let overlaps_by_lambda := u_kln_by_component_by_lambda.map
      (fun c => pair_overlap_from_ukln (sumComponents c))
    let dG_errs_by_lambda_by_component := ukln_by_lambda_by_component.map
      (fun comps => comps.map (fun u => df_err_from_ukln u / beta))
    let overlaps_by_lambda_by_component := ukln_by_lambda_by_component.map
      (fun comps => comps.map pair_overlap_from_ukln)
    some ⟨all_dGs, all_errs, dG_errs_by_lambda_by_component, overlaps_by_lambda,
      overlaps_by_lambda_by_component, stored_frames, stored_boxes, initial_states, md_params⟩

/-- Specification-side description of trajectory retention (the spec's
`keep_idxs` clause): in ladder order, each window is sampled, and exactly the
windows whose index is in `keep_idxs` contribute their trajectory and boxes
to the exported lists. -/
def retainedFrames {X B : Type} (isFinite : X → Bool) (md_params : MDParams)
    (keep_idxs : List Int) :
    Nat → List (InitialState X B) → Option (List (List X) × List (List B))
  | _, [] => some ([], [])
  | i, s :: rest =>
    match sample isFinite s md_params none with
    | none => none
    | some (f, b) =>
      match retainedFrames isFinite md_params keep_idxs (i + 1) rest with
      | none => none
      | some (fs, bs) =>
        if (i : Int) ∈ keep_idxs then some (f :: fs, b :: bs) else some (fs, bs)
termination_by structural _ l => l

end FreeEnergy

namespace Rbfe

/-- `get_batch_U_fns(bps, lamb)` from `timemachine/fe/rbfe.py`: one batched
raw-energy function per bound potential, evaluating `bp(x, box, lamb)` on
each frame (the `functools.partial` wrapper handles Python closure capture;
the bound potential is fixed per function). -/
def get_batch_U_fns {X B : Type} (bps : List (X → B → ℚ → ℚ)) (lamb : ℚ) :
    List (List X → List B → List ℚ) :=
  bps.map (fun bp => fun xs boxes => (xs.zip boxes).map (fun xb => bp xb.1 xb.2 lamb))

/-- `fwd_delta_u = beta * (cur_U_fn(prev_frames, prev_boxes) -
prev_U_fn(prev_frames, prev_boxes))` from
`estimate_free_energy_given_initial_states` in `timemachine/fe/rbfe.py`. -/
def fwd_delta_u {X B : Type} (beta : ℚ) (cur_U_fn prev_U_fn : List X → List B → List ℚ)
    (prev_frames : List X) (prev_boxes : List B) : List ℚ :=
  List.zipWith (fun a b => beta * (a - b)) (cur_U_fn prev_frames prev_boxes)
    (prev_U_fn prev_frames prev_boxes)

/-- `rev_delta_u = beta * (prev_U_fn(cur_frames, cur_boxes) -
cur_U_fn(cur_frames, cur_boxes))` from the same loop. -/
def rev_delta_u {X B : Type} (beta : ℚ) (cur_U_fn prev_U_fn : List X → List B → List ℚ)
    (cur_frames : List X) (cur_boxes : List B) : List ℚ :=
  List.zipWith (fun a b => beta * (a - b)) (prev_U_fn cur_frames cur_boxes)
    (cur_U_fn cur_frames cur_boxes)

/-- `np.sum(list_of_arrays, axis=0)`: pointwise sum over the component
axis. -/
def sumPointwise : List (List ℚ) → List ℚ
  | [] => []
  | h :: t => t.foldl (List.zipWith (· + ·)) h

/-- Failure modes of `estimate_free_energy_given_initial_states` in
`timemachine/fe/rbfe.py`: a frame-count assertion in `sample`, the
`initial_states[0]` access on an empty ladder, and the reference to the loop
variable `u_idx` after the per-component loop (unbound when a state has no
potential terms). -/
inductive EstimateError
  | sampleAssert
  | indexError
  | nameError

/-- `SimulationResult` from `timemachine/fe/rbfe.py` (the figure byte string
is omitted: pure I/O). -/
structure SimulationResult (X B : Type) where
  all_dGs : List ℚ
  all_errs : List ℚ
  frames : List (List X)
  boxes : List (List B)
  initial_states : List (InitialState X B)
  protocol : SimulationProtocol

/-- Mutable state of the `estimate_free_energy_given_initial_states` loop. -/
structure EstimateAcc (X B : Type) where
  all_dGs : List ℚ
  all_errs : List ℚ
  stored_frames : List (List X)
  stored_boxes : List (List B)

/-- The loop of `rbfe.estimate_free_energy_given_initial_states`.  `BAR` is
the external `pymbar.BAR` estimator (abstract).  Per-component BAR results
are computed (for the per-term overlap plots) and discarded; the appended
pair total is re-estimated from the component-summed works, as the source
comment prescribes. -/
def estimateLoop {X B : Type} (BAR : List ℚ → List ℚ → ℚ × ℚ) (protocol : SimulationProtocol)
    (beta : ℚ) (keep_idxs : List Int) :
    Nat → Option (List X × List B × List (List X → List B → List ℚ)) → EstimateAcc X B →
      List (InitialState X B) → Except EstimateError (EstimateAcc X B)
  | _, _, acc, [] => .ok acc
  | lamb_idx, prev, acc, initial_state :: rest =>
    match sample initial_state protocol with
    | none => .error .sampleAssert
    | some (cur_frames, cur_boxes) =>
      let cur_batch_U_fns := get_batch_U_fns initial_state.potentials initial_state.lamb
      let acc1 : EstimateAcc X B :=
        if (lamb_idx : Int) ∈ keep_idxs then
          { acc with stored_frames := acc.stored_frames ++ [cur_frames],
                     stored_boxes := acc.stored_boxes ++ [cur_boxes] }
        else acc
      if 0 < lamb_idx then
        match prev with
        | none => .error .indexError
        | some (prev_frames, prev_boxes, prev_batch_U_fns) =>
          let pairs := prev_batch_U_fns.zip cur_batch_U_fns
          if pairs.length = 0 then .error .nameError
          else
            let all_fwd_delta_us := pairs.map
              (fun pc => fwd_delta_u beta pc.2 pc.1 prev_frames prev_boxes)
            let all_rev_delta_us := pairs.map
              (fun pc => rev_delta_u beta pc.2 pc.1 cur_frames cur_boxes)
            let _component_bars := pairs.map
              (fun pc => BAR (fwd_delta_u beta pc.2 pc.1 prev_frames prev_boxes)
                (rev_delta_u beta pc.2 pc.1 cur_frames cur_boxes))
            let total_fwd_delta_us := sumPointwise all_fwd_delta_us
            let total_rev_delta_us := sumPointwise all_rev_delta_us
            let totalBAR := BAR total_fwd_delta_us total_rev_delta_us
            let acc2 := { acc1 with all_dGs := acc1.all_dGs ++ [totalBAR.1 / beta],
                                    all_errs := acc1.all_errs ++ [totalBAR.2 / beta] }
            estimateLoop BAR protocol beta keep_idxs (lamb_idx + 1)
              (some (cur_frames, cur_boxes, cur_batch_U_fns)) acc2 rest
      else
        estimateLoop BAR protocol beta keep_idxs (lamb_idx + 1)
          (some (cur_frames, cur_boxes, cur_batch_U_fns)) acc1 rest
termination_by structural _ _ _ l => l

/-- `estimate_free_energy_given_initial_states` from
`timemachine/fe/rbfe.py`.  Figure generation is omitted; the `U_names`
construction reads `initial_states[0]`, which raises on an empty ladder. -/
def estimate_free_energy_given_initial_states {X B : Type}
    (BAR : List ℚ → List ℚ → ℚ × ℚ) (initial_states : List (InitialState X B))
    (protocol : SimulationProtocol) (temperature : ℚ) (prefix' : String)
    (keep_idxs : List Int) : Except EstimateError (SimulationResult X B) :=
  let kT := BOLTZ * temperature
  let beta := 1 / kT
  let _ := prefix'
  match initial_states.head? with
  | none => .error .indexError
  | some _ =>
    match estimateLoop BAR protocol beta keep_idxs 0 none ⟨[], [], [], []⟩ initial_states with
    | .error e => .error e
    | .ok acc => .ok ⟨acc.all_dGs, acc.all_errs, acc.stored_frames, acc.stored_boxes,
        initial_states, protocol⟩

/-- `SimulationException` from `timemachine/fe/rbfe.py`: carries the full
list of initial states, the protocol and the message (the diagnostic
prefix); the `cause` field models exception chaining
(`raise ... from old_exc`). -/
structure SimulationException (X B : Type) where
  initial_states : List (InitialState X B)
  protocol : SimulationProtocol
  message : String
  cause : EstimateError

/-- Outcome of `estimate_relative_free_energy`: either the
`assert len(keep_idxs) <= len(lambda_schedule)` failure (raised before the
`try` block, hence not wrapped) or a wrapped `SimulationException`. -/
inductive RelativeError (X B : Type)
  | assertFailure
  | sim (e : SimulationException X B)

/-- `setup_initial_states` from `timemachine/fe/rbfe.py`.  Modelled in part:
the external host/system construction (minimizer, topology combination,
integrator and barostat instantiation) is abstracted by `mkState`, invoked
once per lambda value with `run_seed = seed + lamb_idx` exactly as the source
loop does. -/
def setup_initial_states {X B : Type} (mkState : ℚ → Nat → InitialState X B)
    (lambda_schedule : List ℚ) (seed : Nat) : List (InitialState X B) :=
  lambda_schedule.enum.map (fun p => mkState p.2 (seed + p.1))

/-- The default lambda schedule of `estimate_relative_free_energy`:
`[0.0, 0.01, 0.02, 0.04, 0.06, 0.08, 0.11, 0.15, 0.20, 0.32, 0.42]`
concatenated with `1 -` its reverse. -/
def defaultLambdaSchedule : List ℚ :=
  let base : List ℚ :=
    [0, 1/100, 2/100, 4/100, 6/100, 8/100, 11/100, 15/100, 20/100, 32/100, 42/100]
  base ++ base.reverse.map (fun x => 1 - x)

/-- `estimate_relative_free_energy` from `timemachine/fe/rbfe.py`: builds the
ladder (default schedule when none is given), hard-codes the protocol
`(n_frames, burn_in=10000, steps_per_frame=1000)`, substitutes
`keep_idxs = [0, -1]` when `None`, asserts
`len(keep_idxs) <= len(lambda_schedule)`, and wraps any exception raised by
the estimate into a `SimulationException` carrying the initial states, the
protocol and the combined prefix, chained from the original exception. -/
def estimate_relative_free_energy {X B : Type} (mkState : ℚ → Nat → InitialState X B)
    (BAR : List ℚ → List ℚ → ℚ × ℚ) (mol_a_name mol_b_name : String) (seed : Nat)
    (n_frames : Nat) (prefix' : String) (lambda_schedule? : Option (List ℚ))
    (keep_idxs? : Option (List Int)) :
    Except (RelativeError X B) (SimulationResult X B) :=
  let lambda_schedule := lambda_schedule?.getD defaultLambdaSchedule
  let temperature := DEFAULT_TEMP
  let initial_states := setup_initial_states mkState lambda_schedule seed
  let protocol : SimulationProtocol := ⟨n_frames, 10000, 1000⟩
  let keep_idxs := keep_idxs?.getD [0, -1]
  if keep_idxs.length ≤ lambda_schedule.length then
    let combined_prefix := mol_a_name ++ "_" ++ mol_b_name ++ "_" ++ prefix'
    match estimate_free_energy_given_initial_states BAR initial_states protocol temperature
        combined_prefix keep_idxs with
    | .ok r => .ok r
    | .error e => .error (.sim ⟨initial_states, protocol, combined_prefix, e⟩)
  else .error .assertFailure

/-- Specification-side description of trajectory retention for the rbfe
estimate loop: exactly the windows whose index is in `keep_idxs` contribute
their trajectory and boxes to the exported lists, in ladder order. -/
def retainedFrames {X B : Type} (protocol : SimulationProtocol) (keep_idxs : List Int) :
    Nat → List (InitialState X B) → Option (List (List X) × List (List B))
  | _, [] => some ([], [])
  | i, s :: rest =>
    match sample s protocol with
    | none => none
    | some (f, b) =>
      match retainedFrames protocol keep_idxs (i + 1) rest with
      | none => none
      | some (fs, bs) =>
        if (i : Int) ∈ keep_idxs then some (f :: fs, b :: bs) else some (fs, bs)
termination_by structural _ l => l

/-- Specification-side description of the reported pair totals: for each
adjacent pair, BAR applied to the works of the component-summed energies
(summed over energy components before estimation), divided by beta.  Mirrors
the claim's wording; compared against the loop's `all_dGs`. -/
def pairDGs {X B : Type} (BAR : List ℚ → List ℚ → ℚ × ℚ) (beta : ℚ)
    (protocol : SimulationProtocol) :
    Option (List X × List B × List (List X → List B → List ℚ)) →
      List (InitialState X B) → Option (List ℚ)
  | _, [] => some []
  | prev, s :: rest =>
    match sample s protocol with
    | none => none
    | some (cur_frames, cur_boxes) =>
      let cur_fns := get_batch_U_fns s.potentials s.lamb
      match prev with
      | none => pairDGs BAR beta protocol (some (cur_frames, cur_boxes, cur_fns)) rest
      | some (prev_frames, prev_boxes, prev_fns) =>
        let pairs := prev_fns.zip cur_fns
        if pairs.length = 0 then none
        else
          let total_fwd := sumPointwise
            (pairs.map (fun pc => fwd_delta_u beta pc.2 pc.1 prev_frames prev_boxes))
          let total_rev := sumPointwise
            (pairs.map (fun pc => rev_delta_u beta pc.2 pc.1 cur_frames cur_boxes))
          match pairDGs BAR beta protocol (some (cur_frames, cur_boxes, cur_fns)) rest with
          | none => none
          | some ds => some ((BAR total_fwd total_rev).1 / beta :: ds)
termination_by structural _ l => l

end Rbfe

/-- The component-summed energy of a frame: the total of the per-term
energies, the quantity the claim's `U_A`/`U_B` denote. -/
def totalU {X B : Type} (Us : List (X → B → ℚ)) (x : X) (b : B) : ℚ :=
  (Us.map (fun U => U x b)).sum

/-- A concrete `free_energy.InitialState` with no potential terms, for
pipeline-level witnesses. -/
def witFE : FreeEnergy.InitialState Int Int :=
  ⟨[], idStep, true, 0, 0, 0, 0, []⟩

/-- A concrete `rbfe.InitialState` with one potential term, for
pipeline-level witnesses. -/
def wit2Rbfe : Rbfe.InitialState Int Int :=
  ⟨[fun _ _ _ => 0], idStep, 0, 0, 0, 0⟩

/-- A concrete state builder for `estimate_relative_free_energy` witnesses
(the external construction abstracted by `mkState`). -/
def wmk : ℚ → Nat → Rbfe.InitialState Int Int :=
  fun lamb _ => ⟨[fun _ _ _ => 0], idStep, 0, 0, 0, lamb⟩

/-- Claim C3: for every `n >= 0` and `batch_size > 0`, `batches(n, batch_size)`
yields a sequence of integers that sums to exactly `n`, in which every element
except possibly the last equals `batch_size` and the last element lies in
`[1, batch_size]`; `batches(0, k)` yields an empty sequence; `batch_size <= 0`
is rejected (assertion failure) rather than producing output. -/
theorem batches_split_correct (n batch_size : Int) :
    (∀ bs, FreeEnergy.batches n batch_size = some bs →
      bs.sum = n ∧ (∀ x ∈ bs.dropLast, x = batch_size) ∧
      (bs ≠ [] → 1 ≤ bs.getLastD 0 ∧ bs.getLastD 0 ≤ batch_size)) ∧
    (0 ≤ n → 0 < batch_size → (FreeEnergy.batches n batch_size).isSome = true) ∧
    (0 < batch_size → FreeEnergy.batches 0 batch_size = some []) ∧
    (batch_size ≤ 0 → FreeEnergy.batches n batch_size = none) := by
  constructor
  · intro bs hbs
    unfold FreeEnergy.batches at hbs
    split at hbs
    · exact absurd hbs (by simp)
    split at hbs
    · exact absurd hbs (by simp)
    rename_i hn hk
    push_neg at hn hk
    simp only [Option.some.injEq] at hbs
    have hdm := Nat.div_add_mod n.toNat batch_size.toNat
    have hkpos : 0 < batch_size := hk
    have hknat : ((batch_size.toNat : Int)) = batch_size := Int.toNat_of_nonneg (le_of_lt hkpos)
    have hnnat : ((n.toNat : Int)) = n := Int.toNat_of_nonneg hn
    have hbn0 : 0 < batch_size.toNat := by omega
    have hmod : n.toNat % batch_size.toNat < batch_size.toNat := Nat.mod_lt _ hbn0
    by_cases hr : n.toNat % batch_size.toNat = 0
    · -- remainder zero: bs is just the replicated list
      have hbs' : bs = List.replicate (n.toNat / batch_size.toNat) batch_size := by
        rw [← hbs]
        simp [hr]
      subst hbs'
      have h1 : (batch_size.toNat * (n.toNat / batch_size.toNat) : Nat) = n.toNat := by omega
      have h2 := congrArg (fun m : Nat => (m : Int)) h1
      refine ⟨?_, ?_, ?_⟩
      · rw [List.sum_replicate, nsmul_eq_mul, mul_comm]
        push_cast at h2 ⊢
        rw [hknat, hnnat] at h2 ⊢
        exact h2
      · intro x hx
        exact List.eq_of_mem_replicate
          ((List.dropLast_sublist (List.replicate (n.toNat / batch_size.toNat) batch_size)).mem hx)
      · intro hne
        have hq : n.toNat / batch_size.toNat ≠ 0 := by
          intro h0
          simp [h0] at hne
        rcases Nat.exists_eq_succ_of_ne_zero hq with ⟨q, hq'⟩
        rw [hq', List.replicate_succ', List.getLastD_concat]
        omega
    · -- nonzero remainder: a final short batch
      have hbs' : bs = List.replicate (n.toNat / batch_size.toNat) batch_size ++
          [((n.toNat % batch_size.toNat : Nat) : Int)] := by
        rw [← hbs]
        simp [hr]
      subst hbs'
      have h2 := congrArg (fun m : Nat => (m : Int)) hdm
      refine ⟨?_, ?_, ?_⟩
      · rw [List.sum_append, List.sum_replicate, nsmul_eq_mul, mul_comm, List.sum_cons,
          List.sum_nil, add_zero]
        push_cast at h2 ⊢
        rw [hknat, hnnat] at h2 ⊢
        exact h2
      · intro x hx
        rw [List.dropLast_concat] at hx
        exact List.eq_of_mem_replicate hx
      · intro _
        rw [List.getLastD_concat]
        have hrpos : 0 < n.toNat % batch_size.toNat := Nat.pos_of_ne_zero hr
        have hble : ((n.toNat % batch_size.toNat : Nat) : Int) < batch_size := by
          have hc : ((n.toNat % batch_size.toNat : Nat) : Int) < ((batch_size.toNat : Nat) : Int) := by
            exact_mod_cast hmod
          rwa [hknat] at hc
        exact ⟨by exact_mod_cast hrpos, le_of_lt hble⟩
  · refine ⟨?_, ?_, ?_⟩
    · intro hn hk
      unfold FreeEnergy.batches
      rw [if_neg (by omega), if_neg (by omega)]
      simp
    · intro hk
      unfold FreeEnergy.batches
      rw [if_neg (by omega), if_neg (by omega)]
      simp
    · intro hk
      unfold FreeEnergy.batches
      by_cases hn0 : n < 0
      · rw [if_pos hn0]
      · rw [if_neg hn0, if_pos hk]

/-- Witness for C3: evaluate `batches 7 3 = [3, 3, 1]` and check the proved
properties there. -/
theorem batches_split_correct_witness :
    [(3 : Int), 3, 1].sum = 7 ∧ (∀ x ∈ [(3 : Int), 3, 1].dropLast, x = 3) ∧
      ([(3 : Int), 3, 1] ≠ [] → 1 ≤ [(3 : Int), 3, 1].getLastD 0 ∧
        [(3 : Int), 3, 1].getLastD 0 ≤ 3) ∧
      FreeEnergy.batches 0 3 = some [] ∧ FreeEnergy.batches 7 (-2) = none := by
  refine ⟨?_, ?_, ?_, ?_, ?_⟩
  · exact ((batches_split_correct 7 3).1 [3, 3, 1] (by decide)).1
  · exact ((batches_split_correct 7 3).1 [3, 3, 1] (by decide)).2.1
  · exact ((batches_split_correct 7 3).1 [3, 3, 1] (by decide)).2.2
  · exact (batches_split_correct 0 3).2.2.1 (by decide)
  · exact (batches_split_correct 7 (-2)).2.2.2 (by decide)

/-- The number of coordinate frames stored by the engine model. -/
theorem multipleStepsU_coords_length {X B : Type} (step : EngState X B → EngState X B)
    (s : EngState X B) (n i : Nat) :
    (multipleStepsU step s n i).2.1.length = if i = 0 then 0 else n / i := by
  by_cases hi : i = 0
  · simp [multipleStepsU, hi]
  · simp [multipleStepsU, hi]

/-- The number of boxes stored by the engine model. -/
theorem multipleStepsU_boxes_length {X B : Type} (step : EngState X B → EngState X B)
    (s : EngState X B) (n i : Nat) :
    (multipleStepsU step s n i).2.2.length = if i = 0 then 0 else n / i := by
  by_cases hi : i = 0
  · simp [multipleStepsU, hi]
  · simp [multipleStepsU, hi]

/-- `batches` on natural inputs with a positive batch size. -/
theorem batches_natCast (n k : Nat) (hk : 0 < k) :
    FreeEnergy.batches (n : Int) (k : Int) =
      some (List.replicate (n / k) (k : Int) ++
        if n % k ≠ 0 then [((n % k : Nat) : Int)] else []) := by
  unfold FreeEnergy.batches
  rw [if_neg (by omega), if_neg (by omega)]
  simp

/-- Total size of the batch split of `n` by `k`. -/
theorem batchList_toNat_sum (n k : Nat) (hk : 0 < k) :
    ((List.replicate (n / k) (k : Int) ++
      if n % k ≠ 0 then [((n % k : Nat) : Int)] else []).map Int.toNat).sum = n := by
  by_cases hr : n % k = 0
  · rw [if_neg (by simp [hr])]
    simp only [List.append_nil, List.map_replicate, Int.toNat_natCast, List.sum_replicate,
      smul_eq_mul]
    exact Nat.div_mul_cancel (Nat.dvd_of_mod_eq_zero hr)
  · rw [if_pos hr]
    simp only [List.map_append, List.map_replicate, Int.toNat_natCast, List.map_cons,
      List.map_nil, List.sum_append, List.sum_replicate, smul_eq_mul, List.sum_cons,
      List.sum_nil, add_zero]
    rw [mul_comm]
    exact Nat.div_add_mod n k
/-- Frame/box counts accumulated by the streaming fold in `sample`. -/
theorem streamFold_lengths {X B : Type} (step : EngState X B → EngState X B) (spf : Nat)
    (hspf : spf ≠ 0) :
    ∀ (bs : List Int) (acc : EngState X B × List X × List B),
      ((bs.foldl (FreeEnergy.extendBatch step spf) acc).2.1.length =
        acc.2.1.length + (bs.map Int.toNat).sum) ∧
      ((bs.foldl (FreeEnergy.extendBatch step spf) acc).2.2.length =
        acc.2.2.length + (bs.map Int.toNat).sum)
  | [], acc => by simp
  | b :: bs, acc => by
    have ih := streamFold_lengths step spf hspf bs (FreeEnergy.extendBatch step spf acc b)
    simp only [List.foldl_cons, List.map_cons, List.sum_cons]
    constructor
    · rw [ih.1]
      simp only [FreeEnergy.extendBatch, List.length_append, multipleStepsU_coords_length,
        if_neg hspf, Nat.mul_div_cancel _ (Nat.pos_of_ne_zero hspf)]
      omega
    · rw [ih.2]
      simp only [FreeEnergy.extendBatch, List.length_append, multipleStepsU_boxes_length,
        if_neg hspf, Nat.mul_div_cancel _ (Nat.pos_of_ne_zero hspf)]
      omega

/-- If the final assertions of `sample` pass, the returned lengths equal
`n_frames`, and both the equilibration and last-frame finiteness checks have
passed. -/
theorem finishSample_some {X B : Type} (isFinite : X → Bool) (n : Nat)
    (o : Option (EngState X B × List X × List B)) (t : List X) (b : List B)
    (h : FreeEnergy.finishSample isFinite n o = some (t, b)) :
    t.length = n ∧ b.length = n ∧ t.getLast?.map isFinite = some true := by
  rcases o with _ | ⟨c, coords, boxes⟩
  · exact absurd h (by simp [FreeEnergy.finishSample])
  · simp only [FreeEnergy.finishSample] at h
    split at h
    · rename_i hlen
      split at h
      · rename_i c0 hlast
        split at h
        · rename_i hfin
          rw [Option.some.injEq, Prod.mk.injEq] at h
          obtain ⟨ht, hb⟩ := h
          subst ht
          subst hb
          exact ⟨hlen.1, hlen.2, by rw [hlast]; simp [hfin]⟩
        · exact absurd h (by simp)
      · exact absurd h (by simp)
    · exact absurd h (by simp)

/-- If the production phase produced exactly `n ≥ 1` frames and boxes and
every frame is finite, the final assertions of `sample` pass. -/
theorem finishSample_isSome {X B : Type} (isFinite : X → Bool) (n : Nat)
    (cb : EngState X B × List X × List B)
    (hc : cb.2.1.length = n) (hb : cb.2.2.length = n) (hn : 1 ≤ n)
    (hfin : ∀ x, isFinite x = true) :
    (FreeEnergy.finishSample isFinite n (some cb)).isSome = true := by
  rcases cb with ⟨c, coords, boxes⟩
  simp only [FreeEnergy.finishSample]
  rw [if_pos ⟨hc, hb⟩]
  have hne : coords ≠ [] := by
    intro h0
    rw [h0] at hc
    simp at hc
    omega
  rcases hlast : coords.getLast? with _ | c0
  · exact absurd (List.getLast?_eq_none_iff.mp hlast) hne
  · simp [hfin c0]

/-- The production phase always yields exactly `n_frames` frames and boxes
when the thinning interval is positive, on both the contiguous and the
streaming path. -/
theorem sampleProduction_lengths {X B : Type} (step : EngState X B → EngState X B)
    (n spf : Nat) (mbf : Option Nat) (ctxt1 : EngState X B) (hspf : spf ≠ 0) :
    ∃ cb, FreeEnergy.sampleProduction step n spf mbf ctxt1 = some cb ∧
      cb.2.1.length = n ∧ cb.2.2.length = n := by
  have hdirect :
      (multipleStepsU step ctxt1 (n * spf) spf).2.1.length = n ∧
      (multipleStepsU step ctxt1 (n * spf) spf).2.2.length = n := by
    rw [multipleStepsU_coords_length, multipleStepsU_boxes_length, if_neg hspf,
      Nat.mul_div_cancel _ (Nat.pos_of_ne_zero hspf)]
    exact ⟨rfl, rfl⟩
  rcases mbf with _ | k
  · exact ⟨_, rfl, hdirect⟩
  · by_cases hk : k = 0
    · refine ⟨_, ?_, hdirect⟩
      simp [FreeEnergy.sampleProduction, hk]
    · have hkpos : 0 < k := Nat.pos_of_ne_zero hk
      have hfold := streamFold_lengths step spf hspf
        (List.replicate (n / k) (k : Int) ++
          if n % k ≠ 0 then [((n % k : Nat) : Int)] else []) (ctxt1, [], [])
      rw [batchList_toNat_sum n k hkpos] at hfold
      simp only [List.length_nil, Nat.zero_add] at hfold
      refine ⟨_, ?_, hfold.1, hfold.2⟩
      simp only [FreeEnergy.sampleProduction, ne_eq, hk, not_false_eq_true, if_pos, reduceIte]
      rw [batches_natCast n k hkpos]

/-- Claim C2: for every `InitialState` and every protocol with `n_frames >= 1`,
`sample` returns a trajectory and a box sequence each of length exactly
`protocol.n_frames`, in both the fully in-memory path and the
`max_buffer_frames` streaming path.  Part one: whenever `sample` returns (the
internal assertions did not fire), the returned lengths are exactly
`n_frames`, for every path.  Part two: for a positive thinning interval and
everywhere-finite dynamics the assertions never fire and `sample` does
return. -/
theorem sample_frame_count_postcondition :
    (∀ {X B : Type} (world : Nat) (isFinite : X → Bool) (is : FreeEnergy.InitialState X B)
        (p : FreeEnergy.MDParams) (mbf : Option Nat) (t : List X) (b : List B),
      FreeEnergy.sampleRun world isFinite is p mbf = some (t, b) →
        t.length = p.n_frames ∧ b.length = p.n_frames) ∧
    (∀ {X B : Type} (world : Nat) (isFinite : X → Bool) (is : FreeEnergy.InitialState X B)
        (p : FreeEnergy.MDParams) (mbf : Option Nat),
      (∀ x, isFinite x = true) → 1 ≤ p.n_frames → 1 ≤ p.steps_per_frame →
        (FreeEnergy.sampleRun world isFinite is p mbf).isSome = true) := by
  constructor
  · intro X B world isFinite is p mbf t b h
    simp only [FreeEnergy.sampleRun] at h
    split at h
    · have := finishSample_some isFinite p.n_frames _ t b h
      exact ⟨this.1, this.2.1⟩
    · exact absurd h (by simp)
  · intro X B world isFinite is p mbf hfin hnf hspf
    have hspf0 : p.steps_per_frame ≠ 0 := by omega
    simp only [FreeEnergy.sampleRun]
    rw [if_pos (hfin _)]
    obtain ⟨cb, hcb, hc, hb⟩ := sampleProduction_lengths is.step p.n_frames p.steps_per_frame
      mbf ((multipleStepsU is.step (mkContext world is.x0 is.v0 is.box0) p.n_eq_steps 0).1) hspf0
    rw [hcb]
    exact finishSample_isSome isFinite p.n_frames cb hc hb hnf hfin

/-- Witness for C2: a concrete streaming-path invocation (`n_frames = 2`,
`max_buffer_frames = 1`) returns exactly two frames and two boxes, and the
totality part applies to it. -/
theorem sample_frame_count_postcondition_witness :
    (([5, 5] : List Int).length = 2 ∧ ([0, 0] : List Int).length = 2) ∧
      (FreeEnergy.sampleRun 0 (fun _ => true) okFE ⟨2, 0, 1⟩ (some 1)).isSome = true := by
  constructor
  · exact sample_frame_count_postcondition.1 0 (fun _ => true) okFE ⟨2, 0, 1⟩ (some 1)
      [5, 5] [0, 0] rfl
  · exact sample_frame_count_postcondition.2 0 (fun _ => true) okFE ⟨2, 0, 1⟩ (some 1)
      (fun _ => rfl) (by decide) (by decide)

/-- Amended claim C6: `free_energy.sample` asserts coordinate finiteness
after the burn-in steps (a non-finite coordinate is a fatal, non-retried
failure) and asserts finiteness of the last recorded frame after production;
`rbfe.sample` performs no finiteness assertion on any path.  Part one: a
non-finite coordinate after burn-in makes `free_energy.sample` fail.  Part
two: whenever `free_energy.sample` returns, both the burn-in finiteness check
and the last-frame finiteness check have passed. -/
theorem nonfinite_abort_free_energy_only :
    (∀ {X B : Type} (world : Nat) (isFinite : X → Bool) (is : FreeEnergy.InitialState X B)
        (p : FreeEnergy.MDParams) (mbf : Option Nat),
      isFinite ((multipleStepsU is.step (mkContext world is.x0 is.v0 is.box0)
          p.n_eq_steps 0).1).x = false →
        FreeEnergy.sampleRun world isFinite is p mbf = none) ∧
    (∀ {X B : Type} (world : Nat) (isFinite : X → Bool) (is : FreeEnergy.InitialState X B)
        (p : FreeEnergy.MDParams) (mbf : Option Nat) (t : List X) (b : List B),
      FreeEnergy.sampleRun world isFinite is p mbf = some (t, b) →
        isFinite ((multipleStepsU is.step (mkContext world is.x0 is.v0 is.box0)
            p.n_eq_steps 0).1).x = true ∧
          t.getLast?.map isFinite = some true) := by
  constructor
  · intro X B world isFinite is p mbf h
    simp only [FreeEnergy.sampleRun]
    rw [if_neg (by rw [h]; exact Bool.false_ne_true)]
  · intro X B world isFinite is p mbf t b h
    simp only [FreeEnergy.sampleRun] at h
    split at h
    · rename_i hfin
      exact ⟨hfin, (finishSample_some isFinite p.n_frames _ t b h).2.2⟩
    · exact absurd h (by simp)

/-- Witness for the amended C6: the burn-in abort fires on a concrete
non-finite probe state, and a concrete successful invocation has passed both
finiteness checks. -/
theorem nonfinite_abort_free_energy_only_witness :
    FreeEnergy.sampleRun 0 nonneg probeFE ⟨1, 3, 1⟩ none = none ∧
      ([(5 : Int)].getLast?.map (fun _ => true) = some true) := by
  constructor
  · exact nonfinite_abort_free_energy_only.1 0 nonneg probeFE ⟨1, 3, 1⟩ none rfl
  · exact (nonfinite_abort_free_energy_only.2 0 (fun _ => true) okFE ⟨1, 0, 1⟩ none
      [5] [0] rfl).2

/-- Counterexample for C6 as stated: the claim asserts that *every* sampling
path used by the pipeline asserts coordinate finiteness after burn-in and on
the last recorded frame.  The `rbfe.sample` path performs no such check: on a
probe state whose coordinates are "non-finite" from the start (the
`free_energy.sample` path aborts on it), `rbfe.sample` returns the non-finite
trajectory successfully. -/
theorem nonfinite_abort_counterexample :
    Rbfe.sample probeRbfe ⟨1, 3, 1⟩ = some ([-1], [0]) ∧
      nonneg (-1) = false ∧
      FreeEnergy.sample nonneg probeFE ⟨1, 3, 1⟩ none = none :=
  ⟨rfl, rfl, rfl⟩

/-- Claim C7: sampling determinism.  The engine (`custom_ops`) is modelled,
per the spec's contract, as a deterministic function of the `InitialState`
(all randomness flows through the seeds it carries); given that, two
invocations of either sampler — modelled by distinct `world` identities for
the freshly constructed contexts — produce identical trajectories and boxes,
for both `free_energy.sample` and `rbfe.sample`. -/
theorem sampling_determinism :
    (∀ {X B : Type} (w₁ w₂ : Nat) (isFinite : X → Bool) (is : FreeEnergy.InitialState X B)
        (p : FreeEnergy.MDParams) (mbf : Option Nat),
      FreeEnergy.sampleRun w₁ isFinite is p mbf = FreeEnergy.sampleRun w₂ isFinite is p mbf) ∧
    (∀ {X B : Type} (w₁ w₂ : Nat) (is : Rbfe.InitialState X B) (protocol : Rbfe.SimulationProtocol),
      Rbfe.sampleRun w₁ is protocol = Rbfe.sampleRun w₂ is protocol) := by
  constructor
  · intro X B w₁ w₂ isFinite is p mbf
    rfl
  · intro X B w₁ w₂ is protocol
    rfl

/-- Claim C8: any exception raised while `estimate_relative_free_energy` runs
an estimate is caught and re-raised as a single `SimulationException` whose
payload carries the full list of `InitialState` objects and the
`SimulationProtocol` used (plus the diagnostic prefix), chained from the
original exception; no error is swallowed. -/
theorem simulation_exception_wrapping :
    ∀ {X B : Type} (mkState : ℚ → Nat → Rbfe.InitialState X B)
      (BAR : List ℚ → List ℚ → ℚ × ℚ) (an bn : String) (seed n_frames : Nat) (pfx : String)
      (ls? : Option (List ℚ)) (ki? : Option (List Int)),
      (ki?.getD [0, -1]).length ≤ (ls?.getD Rbfe.defaultLambdaSchedule).length →
      (∀ e, Rbfe.estimate_free_energy_given_initial_states BAR
          (Rbfe.setup_initial_states mkState (ls?.getD Rbfe.defaultLambdaSchedule) seed)
          ⟨n_frames, 10000, 1000⟩ DEFAULT_TEMP (an ++ "_" ++ bn ++ "_" ++ pfx)
          (ki?.getD [0, -1]) = .error e →
        Rbfe.estimate_relative_free_energy mkState BAR an bn seed n_frames pfx ls? ki? =
          .error (.sim ⟨Rbfe.setup_initial_states mkState (ls?.getD Rbfe.defaultLambdaSchedule)
            seed, ⟨n_frames, 10000, 1000⟩, an ++ "_" ++ bn ++ "_" ++ pfx, e⟩)) ∧
      (∀ r, Rbfe.estimate_free_energy_given_initial_states BAR
          (Rbfe.setup_initial_states mkState (ls?.getD Rbfe.defaultLambdaSchedule) seed)
          ⟨n_frames, 10000, 1000⟩ DEFAULT_TEMP (an ++ "_" ++ bn ++ "_" ++ pfx)
          (ki?.getD [0, -1]) = .ok r →
        Rbfe.estimate_relative_free_energy mkState BAR an bn seed n_frames pfx ls? ki? =
          .ok r) := by
  intro X B mkState BAR an bn seed n_frames pfx ls? ki? hlen
  constructor
  · intro e he
    simp only [Rbfe.estimate_relative_free_energy]
    rw [if_pos hlen, he]
  · intro r hr
    simp only [Rbfe.estimate_relative_free_energy]
    rw [if_pos hlen, hr]

/-- Witness for C8: on an empty ladder the inner estimate raises (the
`initial_states[0]` access), and the wrapper re-raises it as a
`SimulationException` carrying the states, protocol and combined prefix. -/
theorem simulation_exception_wrapping_witness :
    Rbfe.estimate_relative_free_energy (fun _ _ => probeRbfe) (fun _ _ => ((0 : ℚ), (0 : ℚ)))
        "a" "b" 0 1 "p" (some []) (some []) =
      .error (.sim ⟨[], ⟨1, 10000, 1000⟩, "a_b_p", .indexError⟩) := by
  exact (simulation_exception_wrapping (fun _ _ => probeRbfe) (fun _ _ => ((0 : ℚ), (0 : ℚ)))
    "a" "b" 0 1 "p" (some []) (some []) (by decide)).1 .indexError rfl

/-- Unfolding of `retainedFrames` on a cons cell with a successful sample. -/
theorem retainedFrames_cons {X B : Type} {isFin : X → Bool} {mdp : FreeEnergy.MDParams}
    {keep : List Int} {i : Nat} {s : FreeEnergy.InitialState X B}
    {rest : List (FreeEnergy.InitialState X B)} {f : List X} {b : List B}
    {fs : List (List X)} {bs : List (List B)}
    (hs : FreeEnergy.sample isFin s mdp none = some (f, b))
    (hret : FreeEnergy.retainedFrames isFin mdp keep (i + 1) rest = some (fs, bs)) :
    FreeEnergy.retainedFrames isFin mdp keep i (s :: rest) =
      if (i : Int) ∈ keep then some (f :: fs, b :: bs) else some (fs, bs) := by
  simp only [FreeEnergy.retainedFrames]
  rw [hs]
  dsimp only
  rw [hret]

/-- The sequential runner's stored trajectories are exactly the retained
(`keep_idxs`-filtered) sampled trajectories, appended to the accumulator. -/
theorem runSeqLoop_stored {X B : Type} (isFin : X → Bool) (mdp : FreeEnergy.MDParams) (T : ℚ)
    (keep : List Int) :
    ∀ (states : List (FreeEnergy.InitialState X B)) (i : Nat) (acc res : FreeEnergy.SeqAcc X B),
      (FreeEnergy.runSeqLoop isFin mdp T keep i acc states).1 = some res →
      ∃ fs bs, FreeEnergy.retainedFrames isFin mdp keep i states = some (fs, bs) ∧
        res.stored_frames = acc.stored_frames ++ fs ∧
        res.stored_boxes = acc.stored_boxes ++ bs
  | [], i, acc, res => by
    intro h
    simp only [FreeEnergy.runSeqLoop] at h
    rw [Option.some.injEq] at h
    subst h
    exact ⟨[], [], rfl, by simp, by simp⟩
  | s :: rest, i, acc, res => by
    intro h
    simp only [FreeEnergy.runSeqLoop] at h
    rcases hs : FreeEnergy.sample isFin s mdp none with _ | ⟨f, b⟩
    · rw [hs] at h
      exact absurd h (by simp)
    rw [hs] at h
    dsimp only at h
    by_cases hmem : (i : Int) ∈ keep
    all_goals simp only [hmem, if_pos, if_neg, reduceIte] at h
    · -- retained window
      by_cases h0 : 0 < i
      · simp only [h0, if_pos, reduceIte] at h
        split at h
        · dsimp only at h
          obtain ⟨fs', bs', hret, hsf, hsb⟩ := runSeqLoop_stored isFin mdp T keep rest
            (i + 1) _ res h
          refine ⟨f :: fs', b :: bs', ?_, ?_, ?_⟩
          · rw [retainedFrames_cons hs hret, if_pos hmem]
          · rw [hsf]
            simp
          · rw [hsb]
            simp
        · exact absurd h (by simp)
      · simp only [h0, if_neg, reduceIte] at h
        obtain ⟨fs', bs', hret, hsf, hsb⟩ := runSeqLoop_stored isFin mdp T keep rest
          (i + 1) _ res h
        refine ⟨f :: fs', b :: bs', ?_, ?_, ?_⟩
        · rw [retainedFrames_cons hs hret, if_pos hmem]
        · rw [hsf]
          simp
        · rw [hsb]
          simp
    · -- window not retained
      by_cases h0 : 0 < i
      · simp only [h0, if_pos, reduceIte] at h
        split at h
        · dsimp only at h
          obtain ⟨fs', bs', hret, hsf, hsb⟩ := runSeqLoop_stored isFin mdp T keep rest
            (i + 1) _ res h
          refine ⟨fs', bs', ?_, hsf, hsb⟩
          rw [retainedFrames_cons hs hret, if_neg hmem]
        · exact absurd h (by simp)
      · simp only [h0, if_neg, reduceIte] at h
        obtain ⟨fs', bs', hret, hsf, hsb⟩ := runSeqLoop_stored isFin mdp T keep rest
          (i + 1) _ res h
        refine ⟨fs', bs', ?_, hsf, hsb⟩
        rw [retainedFrames_cons hs hret, if_neg hmem]

/-- Unfolding of the rbfe `retainedFrames` on a cons cell with a successful
sample. -/
theorem rbfeRetainedFrames_cons {X B : Type} {protocol : Rbfe.SimulationProtocol}
    {keep : List Int} {i : Nat} {s : Rbfe.InitialState X B}
    {rest : List (Rbfe.InitialState X B)} {f : List X} {b : List B}
    {fs : List (List X)} {bs : List (List B)}
    (hs : Rbfe.sample s protocol = some (f, b))
    (hret : Rbfe.retainedFrames protocol keep (i + 1) rest = some (fs, bs)) :
    Rbfe.retainedFrames protocol keep i (s :: rest) =
      if (i : Int) ∈ keep then some (f :: fs, b :: bs) else some (fs, bs) := by
  simp only [Rbfe.retainedFrames]
  rw [hs]
  dsimp only
  rw [hret]

/-- The rbfe estimate loop's stored trajectories are exactly the retained
(`keep_idxs`-filtered) sampled trajectories, appended to the accumulator. -/
theorem estimateLoop_stored {X B : Type} (BAR : List ℚ → List ℚ → ℚ × ℚ)
    (protocol : Rbfe.SimulationProtocol) (beta : ℚ) (keep : List Int) :
    ∀ (states : List (Rbfe.InitialState X B)) (i : Nat)
      (prev : Option (List X × List B × List (List X → List B → List ℚ)))
      (acc res : Rbfe.EstimateAcc X B),
      Rbfe.estimateLoop BAR protocol beta keep i prev acc states = .ok res →
      ∃ fs bs, Rbfe.retainedFrames protocol keep i states = some (fs, bs) ∧
        res.stored_frames = acc.stored_frames ++ fs ∧
        res.stored_boxes = acc.stored_boxes ++ bs
  | [], i, prev, acc, res => by
    intro h
    simp only [Rbfe.estimateLoop] at h
    rw [Except.ok.injEq] at h
    subst h
    exact ⟨[], [], rfl, by simp, by simp⟩
  | s :: rest, i, prev, acc, res => by
    intro h
    simp only [Rbfe.estimateLoop] at h
    rcases hs : Rbfe.sample s protocol with _ | ⟨f, b⟩
    · rw [hs] at h
      exact absurd h (by simp)
    rw [hs] at h
    dsimp only at h
    by_cases hmem : (i : Int) ∈ keep
    all_goals simp only [hmem, if_pos, if_neg, reduceIte] at h
    · by_cases h0 : 0 < i
      · simp only [h0, if_pos, reduceIte] at h
        rcases prev with _ | ⟨pf, pb, pfns⟩
        · exact absurd h (by simp)
        dsimp only at h
        split at h
        · exact absurd h (by simp)
        · obtain ⟨fs', bs', hret, hsf, hsb⟩ := estimateLoop_stored BAR protocol beta keep rest
            (i + 1) _ _ res h
          refine ⟨f :: fs', b :: bs', ?_, ?_, ?_⟩
          · rw [rbfeRetainedFrames_cons hs hret, if_pos hmem]
          · rw [hsf]
            simp
          · rw [hsb]
            simp
      · simp only [h0, if_neg, reduceIte] at h
        obtain ⟨fs', bs', hret, hsf, hsb⟩ := estimateLoop_stored BAR protocol beta keep rest
          (i + 1) _ _ res h
        refine ⟨f :: fs', b :: bs', ?_, ?_, ?_⟩
        · rw [rbfeRetainedFrames_cons hs hret, if_pos hmem]
        · rw [hsf]
          simp
        · rw [hsb]
          simp
    · by_cases h0 : 0 < i
      · simp only [h0, if_pos, reduceIte] at h
        rcases prev with _ | ⟨pf, pb, pfns⟩
        · exact absurd h (by simp)
        dsimp only at h
        split at h
        · exact absurd h (by simp)
        · obtain ⟨fs', bs', hret, hsf, hsb⟩ := estimateLoop_stored BAR protocol beta keep rest
            (i + 1) _ _ res h
          refine ⟨fs', bs', ?_, hsf, hsb⟩
          rw [rbfeRetainedFrames_cons hs hret, if_neg hmem]
      · simp only [h0, if_neg, reduceIte] at h
        obtain ⟨fs', bs', hret, hsf, hsb⟩ := estimateLoop_stored BAR protocol beta keep rest
          (i + 1) _ _ res h
        refine ⟨fs', bs', ?_, hsf, hsb⟩
        rw [rbfeRetainedFrames_cons hs hret, if_neg hmem]

/-- Claim C9: for every window index in `keep_idxs` the runner retains that
window's trajectory and boxes for final export, and windows whose index is
not in `keep_idxs` have no trajectory retained in the returned
`stored_frames`/`stored_boxes` — in both the free_energy sequential runner
and the rbfe estimate loop.  The retained values are the sampled trajectories
themselves (value semantics), unaffected by the later eviction of the
internal `tmp_states` window. -/
theorem keep_idxs_retention :
    (∀ {X B : Type} (isFin : X → Bool) (states : List (FreeEnergy.InitialState X B))
        (mdp : FreeEnergy.MDParams) (T : ℚ) (keep : List Int)
        (u : List (List FreeEnergy.UKln)) (sf : List (List X)) (sb : List (List B)),
      FreeEnergy.run_sequential_sims_given_initial_states isFin states mdp T keep =
          some (u, sf, sb) →
        FreeEnergy.retainedFrames isFin mdp keep 0 states = some (sf, sb)) ∧
    (∀ {X B : Type} (BAR : List ℚ → List ℚ → ℚ × ℚ) (states : List (Rbfe.InitialState X B))
        (protocol : Rbfe.SimulationProtocol) (T : ℚ) (pfx : String) (keep : List Int)
        (r : Rbfe.SimulationResult X B),
      Rbfe.estimate_free_energy_given_initial_states BAR states protocol T pfx keep = .ok r →
        Rbfe.retainedFrames protocol keep 0 states = some (r.frames, r.boxes)) := by
  constructor
  · intro X B isFin states mdp T keep u sf sb h
    simp only [FreeEnergy.run_sequential_sims_given_initial_states,
      FreeEnergy.run_sequential_sims_trace] at h
    split at h
    · exact absurd h (by simp)
    · rcases hr : (FreeEnergy.runSeqLoop isFin mdp T keep 0
          ⟨[], [], List.replicate states.length none, []⟩ states).1 with _ | acc
      all_goals rw [hr] at h
      · exact absurd h (by simp)
      · simp only [Option.map_some, Option.some.injEq, Prod.mk.injEq] at h
        obtain ⟨fs, bs, hret, hsf', hsb'⟩ := runSeqLoop_stored isFin mdp T keep states 0 _ acc hr
        rw [hret]
        simp only [List.nil_append] at hsf' hsb'
        simp_all
  · intro X B BAR states protocol T pfx keep r h
    simp only [Rbfe.estimate_free_energy_given_initial_states] at h
    rcases states with _ | ⟨s0, rest⟩
    · exact absurd h (by simp)
    · simp only [List.head?] at h
      rcases hl : Rbfe.estimateLoop BAR protocol (1 / (BOLTZ * T)) keep 0 none
          ⟨[], [], [], []⟩ (s0 :: rest) with e | acc
      all_goals rw [hl] at h
      · exact absurd h (by simp)
      · simp only [Except.ok.injEq] at h
        obtain ⟨fs, bs, hret, hsf', hsb'⟩ := estimateLoop_stored BAR protocol
          (1 / (BOLTZ * T)) keep (s0 :: rest) 0 none _ acc hl
        rw [hret, ← h]
        simp only [List.nil_append] at hsf' hsb'
        simp [hsf', hsb']

/-- Witness for C9: a concrete two-window run with `keep_idxs = [0]` retains
exactly window 0's trajectory and boxes, in both runners. -/
theorem keep_idxs_retention_witness :
    FreeEnergy.retainedFrames (fun _ => true) ⟨1, 0, 1⟩ [0] 0 [witFE, witFE] =
        some ([[0]], [[0]]) ∧
      Rbfe.retainedFrames ⟨1, 0, 1⟩ [0] 0 [wit2Rbfe, wit2Rbfe] = some ([[0]], [[0]]) := by
  constructor
  · exact keep_idxs_retention.1 (fun _ => true) [witFE, witFE] ⟨1, 0, 1⟩ 300 [0]
      [[]] [[0]] [[0]] rfl
  · exact keep_idxs_retention.2 (fun _ _ => ((0 : ℚ), (0 : ℚ))) [wit2Rbfe, wit2Rbfe]
      ⟨1, 0, 1⟩ 300 "x" [0]
      ⟨[0 / (1 / (BOLTZ * 300))], [0 / (1 / (BOLTZ * 300))], [[0]], [[0]],
        [wit2Rbfe, wit2Rbfe], ⟨1, 0, 1⟩⟩ rfl

/-- The engine's final state under the identity dynamics. -/
theorem runSteps_idStep : ∀ (n : Nat) (s : EngState Int Int), runSteps idStep n s = s
  | 0, _ => rfl
  | n + 1, s => runSteps_idStep n s

/-- The final context returned by the engine model. -/
theorem multipleStepsU_fst {X B : Type} (step : EngState X B → EngState X B) (s : EngState X B)
    (n i : Nat) : (multipleStepsU step s n i).1 = runSteps step n s := rfl

/-- Stored frames under the identity dynamics are copies of the current
state. -/
theorem multipleStepsU_idStep (s : EngState Int Int) (n i : Nat) (hi : i ≠ 0) :
    multipleStepsU idStep s n i =
      (s, List.replicate (n / i) s.x, List.replicate (n / i) s.box) := by
  simp only [multipleStepsU, if_neg hi, List.map_map]
  rw [runSteps_idStep]
  refine congrArg _ ?_
  have hmap : ∀ (g : EngState Int Int → Int),
      (List.range (n / i)).map (g ∘ fun j => runSteps idStep ((j + 1) * i) s) =
        List.replicate (n / i) (g s) := by
    intro g
    have : (g ∘ fun j => runSteps idStep ((j + 1) * i) s) = fun _ => g s := by
      funext j
      simp [Function.comp, runSteps_idStep]
    rw [this]
    simp
  rw [Prod.mk.injEq]
  exact ⟨hmap (·.x), hmap (·.box)⟩

/-- Concrete evaluation of `rbfe.sample` on the witness states under the
hard-coded protocol of `estimate_relative_free_energy`. -/
theorem rbfe_sample_wmk (lamb : ℚ) (k : Nat) :
    Rbfe.sample (wmk lamb k) ⟨1, 10000, 1000⟩ = some ([0], [0]) := by
  have hb : (multipleStepsU idStep (⟨0, 0, 0⟩ : EngState Int Int) 10000 0).1 = ⟨0, 0, 0⟩ := by
    rw [multipleStepsU_fst, runSteps_idStep]
  have h1 := multipleStepsU_idStep ⟨0, 0, 0⟩ (1 * 1000) 1000 (by norm_num)
  simp only [Rbfe.sample, Rbfe.sampleRun, wmk, mkContext]
  rw [hb, h1]
  norm_num

/-- The rbfe estimate retains exactly the `keep_idxs` windows (helper shared
by the retention claims). -/
theorem rbfe_estimate_retained {X B : Type} (BAR : List ℚ → List ℚ → ℚ × ℚ)
    (states : List (Rbfe.InitialState X B)) (protocol : Rbfe.SimulationProtocol) (T : ℚ)
    (pfx : String) (keep : List Int) (r : Rbfe.SimulationResult X B)
    (h : Rbfe.estimate_free_energy_given_initial_states BAR states protocol T pfx keep = .ok r) :
    Rbfe.retainedFrames protocol keep 0 states = some (r.frames, r.boxes) := by
  simp only [Rbfe.estimate_free_energy_given_initial_states] at h
  rcases states with _ | ⟨s0, rest⟩
  · exact absurd h (by simp)
  · simp only [List.head?] at h
    rcases hl : Rbfe.estimateLoop BAR protocol (1 / (BOLTZ * T)) keep 0 none
        ⟨[], [], [], []⟩ (s0 :: rest) with e | acc
    all_goals rw [hl] at h
    · exact absurd h (by simp)
    · simp only [Except.ok.injEq] at h
      obtain ⟨fs, bs, hret, hsf', hsb'⟩ := estimateLoop_stored BAR protocol
        (1 / (BOLTZ * T)) keep (s0 :: rest) 0 none _ acc hl
      rw [hret, ← h]
      simp only [List.nil_append] at hsf' hsb'
      simp [hsf', hsb']

/-- With the default `keep_idxs = [0, -1]`, no window of index `>= 1` is ever
retained (the running index is nonnegative and never equals `-1`). -/
theorem retained_default_tail {X B : Type} (protocol : Rbfe.SimulationProtocol) :
    ∀ (states : List (Rbfe.InitialState X B)) (i : Nat), 1 ≤ i →
      ∀ fs bs, Rbfe.retainedFrames protocol [0, -1] i states = some (fs, bs) →
        fs = [] ∧ bs = []
  | [], i, _, fs, bs => by
    intro h
    simp only [Rbfe.retainedFrames, Option.some.injEq, Prod.mk.injEq] at h
    exact ⟨h.1.symm, h.2.symm⟩
  | s :: rest, i, hi, fs, bs => by
    intro h
    simp only [Rbfe.retainedFrames] at h
    rcases hs : Rbfe.sample s protocol with _ | ⟨f, b⟩
    all_goals rw [hs] at h
    · exact absurd h (by simp)
    · dsimp only at h
      rcases hret : Rbfe.retainedFrames protocol [0, -1] (i + 1) rest with _ | ⟨fs', bs'⟩
      all_goals rw [hret] at h
      · exact absurd h (by simp)
      · have hmem : ¬ ((i : Int) ∈ [(0 : Int), -1]) := by
          simp only [List.mem_cons, List.mem_singleton, List.not_mem_nil, or_false]
          push_neg
          omega
        dsimp only at h
        rw [if_neg hmem, Option.some.injEq, Prod.mk.injEq] at h
        obtain ⟨h1, h2⟩ := retained_default_tail protocol rest (i + 1) (by omega) fs' bs' hret
        exact ⟨h.1.symm.trans h1, h.2.symm.trans h2⟩

/-- Claim C10: when `estimate_relative_free_energy` is called with
`keep_idxs=None` it substitutes `[0, -1]`; because retention tests membership
of the nonnegative running window index in that list, for every ladder of
length `>= 2` only window 0's frames and boxes are retained and the final
window's trajectory is never retained: the returned frames list has length 1,
not 2. -/
theorem default_keep_idxs_retains_only_first :
    ∀ {X B : Type} (mkState : ℚ → Nat → Rbfe.InitialState X B)
      (BAR : List ℚ → List ℚ → ℚ × ℚ) (an bn : String) (seed n_frames : Nat) (pfx : String)
      (schedule : List ℚ), 2 ≤ schedule.length →
      ∀ r, Rbfe.estimate_relative_free_energy mkState BAR an bn seed n_frames pfx
          (some schedule) none = .ok r →
        r.frames.length = 1 ∧ r.boxes.length = 1 ∧
          Rbfe.retainedFrames ⟨n_frames, 10000, 1000⟩ [0, -1] 0
            (Rbfe.setup_initial_states mkState schedule seed) = some (r.frames, r.boxes) := by
  intro X B mkState BAR an bn seed n_frames pfx schedule hlen r h
  simp only [Rbfe.estimate_relative_free_energy, Option.getD] at h
  rw [if_pos (show ([(0 : Int), -1]).length ≤ schedule.length by simpa using hlen)] at h
  rcases he : Rbfe.estimate_free_energy_given_initial_states BAR
      (Rbfe.setup_initial_states mkState schedule seed) ⟨n_frames, 10000, 1000⟩ DEFAULT_TEMP
      (an ++ "_" ++ bn ++ "_" ++ pfx) [0, -1] with e | r'
  all_goals rw [he] at h
  · exact absurd h (by simp)
  · rw [Except.ok.injEq] at h
    subst h
    have hret := rbfe_estimate_retained BAR _ _ _ _ _ _ he
    refine ⟨?_, ?_, hret⟩
    all_goals {
      rcases hstates : Rbfe.setup_initial_states mkState schedule seed with _ | ⟨s0, rest⟩
      · exfalso
        have : (Rbfe.setup_initial_states mkState schedule seed).length = schedule.length := by
          simp [Rbfe.setup_initial_states]
        rw [hstates] at this
        simp at this
        omega
      · rw [hstates] at hret
        simp only [Rbfe.retainedFrames] at hret
        rcases hs : Rbfe.sample s0 ⟨n_frames, 10000, 1000⟩ with _ | ⟨f, b⟩
        all_goals rw [hs] at hret
        · exact absurd hret (by simp)
        · dsimp only at hret
          rcases hr2 : Rbfe.retainedFrames ⟨n_frames, 10000, 1000⟩ [0, -1] 1 rest
            with _ | ⟨fs', bs'⟩
          all_goals rw [hr2] at hret
          · exact absurd hret (by simp)
          · obtain ⟨hf0, hb0⟩ := retained_default_tail _ rest 1 (by omega) fs' bs' hr2
            subst hf0
            subst hb0
            dsimp only at hret
            rw [if_pos (by simp), Option.some.injEq, Prod.mk.injEq] at hret
            first
            | (rw [← hret.1]; rfl)
            | (rw [← hret.2]; rfl)
    }

/-- Literal-state form of `rbfe_sample_wmk` (for rewriting after structure
eta-expansion). -/
theorem rbfe_sample_wmkB (lamb : ℚ) :
    Rbfe.sample (⟨[fun _ _ _ => 0], idStep, 0, 0, 0, lamb⟩ : Rbfe.InitialState Int Int)
      ⟨1, 10000, 1000⟩ = some ([0], [0]) :=
  rbfe_sample_wmk lamb 0

/-- Witness for C10: a concrete two-window ladder run with the default
`keep_idxs` retains exactly one trajectory (window 0's). -/
theorem default_keep_idxs_retains_only_first_witness :
    ([[(0 : Int)]].length = 1 ∧ [[(0 : Int)]].length = 1 ∧
      Rbfe.retainedFrames ⟨1, 10000, 1000⟩ [0, -1] 0
        (Rbfe.setup_initial_states wmk [0, 1] 0) = some ([[0]], [[0]])) := by
  have h := default_keep_idxs_retains_only_first wmk (fun _ _ => ((0 : ℚ), (0 : ℚ)))
    "a" "b" 0 1 "p" [0, 1] (by norm_num)
    ⟨[0], [0], [[0]], [[0]], [wmk 0 0, wmk 1 1], ⟨1, 10000, 1000⟩⟩
    (by simp [Rbfe.estimate_relative_free_energy,
      Rbfe.estimate_free_energy_given_initial_states, Rbfe.setup_initial_states,
      Rbfe.estimateLoop, rbfe_sample_wmkB, Rbfe.get_batch_U_fns, Rbfe.fwd_delta_u,
      Rbfe.rev_delta_u, Rbfe.sumPointwise, wmk, List.enum, List.enumFrom])
  exact h

/-- Folding `addUkln` over per-component 2×2 blocks built from batched maps
over the two sampled trajectories accumulates the pointwise sums of the
per-component entries. -/
theorem foldl_addUkln_blocks {X B : Type} (beta : ℚ) (fA : List X) (bA : List B)
    (fB : List X) (bB : List B) :
    ∀ (ps : List ((X → B → ℚ) × (X → B → ℚ))) (e00 e01 e10 e11 : (X × B) → ℚ),
      List.foldl FreeEnergy.addUkln
        [[(fA.zip bA).map e00, (fB.zip bB).map e01],
         [(fA.zip bA).map e10, (fB.zip bB).map e11]]
        (ps.map (fun p =>
          [[(fA.zip bA).map (fun xb => beta * p.1 xb.1 xb.2),
            (fB.zip bB).map (fun xb => beta * p.1 xb.1 xb.2)],
           [(fA.zip bA).map (fun xb => beta * p.2 xb.1 xb.2),
            (fB.zip bB).map (fun xb => beta * p.2 xb.1 xb.2)]])) =
      [[(fA.zip bA).map (fun xb => e00 xb +
          (ps.map (fun p => beta * p.1 xb.1 xb.2)).sum),
        (fB.zip bB).map (fun xb => e01 xb +
          (ps.map (fun p => beta * p.1 xb.1 xb.2)).sum)],
       [(fA.zip bA).map (fun xb => e10 xb +
          (ps.map (fun p => beta * p.2 xb.1 xb.2)).sum),
        (fB.zip bB).map (fun xb => e11 xb +
          (ps.map (fun p => beta * p.2 xb.1 xb.2)).sum)]]
  | [], e00, e01, e10, e11 => by
    simp
  | p :: ps, e00, e01, e10, e11 => by
    simp only [List.map_cons, List.foldl_cons]
    have hstep : FreeEnergy.addUkln
        [[(fA.zip bA).map e00, (fB.zip bB).map e01],
         [(fA.zip bA).map e10, (fB.zip bB).map e11]]
        [[(fA.zip bA).map (fun xb => beta * p.1 xb.1 xb.2),
          (fB.zip bB).map (fun xb => beta * p.1 xb.1 xb.2)],
         [(fA.zip bA).map (fun xb => beta * p.2 xb.1 xb.2),
          (fB.zip bB).map (fun xb => beta * p.2 xb.1 xb.2)]] =
        [[(fA.zip bA).map (fun xb => e00 xb + beta * p.1 xb.1 xb.2),
          (fB.zip bB).map (fun xb => e01 xb + beta * p.1 xb.1 xb.2)],
         [(fA.zip bA).map (fun xb => e10 xb + beta * p.2 xb.1 xb.2),
          (fB.zip bB).map (fun xb => e11 xb + beta * p.2 xb.1 xb.2)]] := by
      simp [FreeEnergy.addUkln, List.zipWith_map, List.zipWith_same]
    rw [hstep, foldl_addUkln_blocks beta fA bA fB bB ps _ _ _ _]
    simp only [List.map_cons, List.sum_cons, add_assoc]

/-- The component-summed `u_kln` of an adjacent pair, built as the runner
builds it (`get_batch_u_fns` per state, `compute_energy_decomposed_u_kln` on
the pair), written out entry by entry. -/
theorem sumComponents_cedk {X B : Type} (T : ℚ) (fA : List X) (bA : List B)
    (fB : List X) (bB : List B) (LA LB : List (X → B → ℚ))
    (hlen : LA.length = LB.length) (hne : LA ≠ []) :
    FreeEnergy.sumComponents (FreeEnergy.compute_energy_decomposed_u_kln
      [⟨fA, bA, FreeEnergy.get_batch_u_fns LA T⟩, ⟨fB, bB, FreeEnergy.get_batch_u_fns LB T⟩]) =
    [[(fA.zip bA).map (fun xb =>
        ((LA.zip LB).map (fun p => (1 / (BOLTZ * T)) * p.1 xb.1 xb.2)).sum),
      (fB.zip bB).map (fun xb =>
        ((LA.zip LB).map (fun p => (1 / (BOLTZ * T)) * p.1 xb.1 xb.2)).sum)],
     [(fA.zip bA).map (fun xb =>
        ((LA.zip LB).map (fun p => (1 / (BOLTZ * T)) * p.2 xb.1 xb.2)).sum),
      (fB.zip bB).map (fun xb =>
        ((LA.zip LB).map (fun p => (1 / (BOLTZ * T)) * p.2 xb.1 xb.2)).sum)]] := by
  rcases hps : LA.zip LB with _ | ⟨p, ps⟩
  · exfalso
    rcases LA with _ | ⟨U, LA⟩
    · exact hne rfl
    · rcases LB with _ | ⟨V, LB⟩
      · simp at hlen
      · simp [List.zip_cons_cons] at hps
  · have hcedk : FreeEnergy.compute_energy_decomposed_u_kln
        [⟨fA, bA, FreeEnergy.get_batch_u_fns LA T⟩,
         ⟨fB, bB, FreeEnergy.get_batch_u_fns LB T⟩] =
        (LA.zip LB).map (fun p =>
          [[(fA.zip bA).map (fun xb => (1 / (BOLTZ * T)) * p.1 xb.1 xb.2),
            (fB.zip bB).map (fun xb => (1 / (BOLTZ * T)) * p.1 xb.1 xb.2)],
           [(fA.zip bA).map (fun xb => (1 / (BOLTZ * T)) * p.2 xb.1 xb.2),
            (fB.zip bB).map (fun xb => (1 / (BOLTZ * T)) * p.2 xb.1 xb.2)]]) := by
      simp only [FreeEnergy.compute_energy_decomposed_u_kln, FreeEnergy.get_batch_u_fns,
        List.zip_map, List.map_map]
      rfl
    rw [hcedk, hps]
    simp only [List.map_cons, FreeEnergy.sumComponents]
    rw [foldl_addUkln_blocks (1 / (BOLTZ * T)) fA bA fB bB ps _ _ _ _]
    simp only [List.sum_cons]

/-- Claim C4: for each adjacent pair of ladder states (A, B), with the
component-summed `u_kln` tensor laid out [energy-function index ∈ {A,B}] ×
[sampled-state index ∈ {A,B}] × frame, the forward reduced-work array
`u_kln[1,0] - u_kln[0,0]` equals `β(U_B(x) - U_A(x))` over frames sampled
under A and the reverse array `u_kln[0,1] - u_kln[1,1]` equals
`β(U_A(x) - U_B(x))` over frames sampled under B; the rbfe loop computes the
same works directly from the raw batched energies. -/
theorem reduced_work_construction :
    (∀ {X B : Type} (UsA UsB : List (X → B → ℚ)) (T : ℚ) (fA : List X) (bA : List B)
        (fB : List X) (bB : List B), UsA.length = UsB.length → UsA ≠ [] →
      FreeEnergy.w_fwd (FreeEnergy.sumComponents (FreeEnergy.compute_energy_decomposed_u_kln
          [⟨fA, bA, FreeEnergy.get_batch_u_fns UsA T⟩,
           ⟨fB, bB, FreeEnergy.get_batch_u_fns UsB T⟩])) =
        (fA.zip bA).map (fun xb => (1 / (BOLTZ * T)) *
          (totalU UsB xb.1 xb.2 - totalU UsA xb.1 xb.2)) ∧
      FreeEnergy.w_rev (FreeEnergy.sumComponents (FreeEnergy.compute_energy_decomposed_u_kln
          [⟨fA, bA, FreeEnergy.get_batch_u_fns UsA T⟩,
           ⟨fB, bB, FreeEnergy.get_batch_u_fns UsB T⟩])) =
        (fB.zip bB).map (fun xb => (1 / (BOLTZ * T)) *
          (totalU UsA xb.1 xb.2 - totalU UsB xb.1 xb.2))) ∧
    (∀ {X B : Type} (bpP bpC : X → B → ℚ → ℚ) (lambP lambC beta : ℚ) (pf : List X)
        (pb : List B) (cf : List X) (cb : List B)
        (fP fC : List X → List B → List ℚ),
      Rbfe.get_batch_U_fns [bpP] lambP = [fP] → Rbfe.get_batch_U_fns [bpC] lambC = [fC] →
      Rbfe.fwd_delta_u beta fC fP pf pb =
          (pf.zip pb).map (fun xb => beta * (bpC xb.1 xb.2 lambC - bpP xb.1 xb.2 lambP)) ∧
        Rbfe.rev_delta_u beta fC fP cf cb =
          (cf.zip cb).map (fun xb => beta * (bpP xb.1 xb.2 lambP - bpC xb.1 xb.2 lambC))) := by
  constructor
  · intro X B UsA UsB T fA bA fB bB hlen hne
    rw [sumComponents_cedk T fA bA fB bB UsA UsB hlen hne]
    have hsum1 : ∀ (x : X) (b : B),
        ((UsA.zip UsB).map (fun p => (1 / (BOLTZ * T)) * p.1 x b)).sum =
          (1 / (BOLTZ * T)) * totalU UsA x b := by
      intro x b
      have hproj : (UsA.zip UsB).map (fun p => (1 / (BOLTZ * T)) * p.1 x b) =
          UsA.map (fun U => (1 / (BOLTZ * T)) * U x b) := by
        rw [show (fun p : (X → B → ℚ) × (X → B → ℚ) => (1 / (BOLTZ * T)) * p.1 x b) =
          (fun U : X → B → ℚ => (1 / (BOLTZ * T)) * U x b) ∘ Prod.fst from rfl,
          ← List.map_map, List.map_fst_zip _ _ (le_of_eq hlen)]
      rw [hproj, List.sum_map_mul_left]
      rfl
    have hsum2 : ∀ (x : X) (b : B),
        ((UsA.zip UsB).map (fun p => (1 / (BOLTZ * T)) * p.2 x b)).sum =
          (1 / (BOLTZ * T)) * totalU UsB x b := by
      intro x b
      have hproj : (UsA.zip UsB).map (fun p => (1 / (BOLTZ * T)) * p.2 x b) =
          UsB.map (fun U => (1 / (BOLTZ * T)) * U x b) := by
        rw [show (fun p : (X → B → ℚ) × (X → B → ℚ) => (1 / (BOLTZ * T)) * p.2 x b) =
          (fun U : X → B → ℚ => (1 / (BOLTZ * T)) * U x b) ∘ Prod.snd from rfl,
          ← List.map_map, List.map_snd_zip _ _ (le_of_eq hlen.symm)]
      rw [hproj, List.sum_map_mul_left]
      rfl
    constructor
    · simp only [FreeEnergy.w_fwd, FreeEnergy.uklnEntry, List.getD_cons_zero,
        List.getD_cons_succ, List.zipWith_map, List.zipWith_same]
      refine List.map_congr_left ?_
      intro xb _
      rw [hsum1, hsum2]
      ring
    · simp only [FreeEnergy.w_rev, FreeEnergy.uklnEntry, List.getD_cons_zero,
        List.getD_cons_succ, List.zipWith_map, List.zipWith_same]
      refine List.map_congr_left ?_
      intro xb _
      rw [hsum1, hsum2]
      ring
  · intro X B bpP bpC lambP lambC beta pf pb cf cb fP fC hfP hfC
    simp only [Rbfe.get_batch_U_fns, List.map_cons, List.map_nil, List.cons.injEq,
      and_true] at hfP hfC
    subst hfP
    subst hfC
    constructor
    · simp only [Rbfe.fwd_delta_u, List.zipWith_map, List.zipWith_same]
    · simp only [Rbfe.rev_delta_u, List.zipWith_map, List.zipWith_same]

/-- Witness for C4: the work arrays evaluated on concrete one-frame
trajectories with concrete potentials. -/
theorem reduced_work_construction_witness :
    (FreeEnergy.w_fwd (FreeEnergy.sumComponents (FreeEnergy.compute_energy_decomposed_u_kln
        [⟨[(0 : Int)], [(0 : Int)], FreeEnergy.get_batch_u_fns [fun _ _ => (1 : ℚ)] 300⟩,
         ⟨[(1 : Int)], [(1 : Int)], FreeEnergy.get_batch_u_fns [fun _ _ => (3 : ℚ)] 300⟩])) =
      [((0 : Int), (0 : Int))].map (fun xb => (1 / (BOLTZ * 300)) *
        (totalU [fun _ _ => (3 : ℚ)] xb.1 xb.2 - totalU [fun _ _ => (1 : ℚ)] xb.1 xb.2))) ∧
    (Rbfe.fwd_delta_u (1 / (BOLTZ * 300))
        (fun xs boxes => (xs.zip boxes).map (fun _ => (3 : ℚ)))
        (fun xs boxes => (xs.zip boxes).map (fun _ => (1 : ℚ))) [(2 : Int)] [(5 : Int)] =
      [((2 : Int), (5 : Int))].map (fun _ => (1 / (BOLTZ * 300)) *
        ((3 : ℚ) - 1))) := by
  constructor
  · exact (reduced_work_construction.1 [fun _ _ => (1 : ℚ)] [fun _ _ => (3 : ℚ)] 300
      [(0 : Int)] [(0 : Int)] [(1 : Int)] [(1 : Int)] rfl (by simp)).1
  · exact (reduced_work_construction.2 (fun _ _ _ => (1 : ℚ)) (fun _ _ _ => (3 : ℚ)) 0 0
      (1 / (BOLTZ * 300)) [(2 : Int)] [(5 : Int)] [] []
      (fun xs boxes => (xs.zip boxes).map (fun _ => (1 : ℚ)))
      (fun xs boxes => (xs.zip boxes).map (fun _ => (3 : ℚ))) rfl rfl).1

/-- The rbfe estimate loop's reported totals are exactly the `pairDGs`
specification: BAR applied to the component-summed works of each adjacent
pair, divided by beta. -/
theorem estimateLoop_dGs {X B : Type} (BAR : List ℚ → List ℚ → ℚ × ℚ)
    (protocol : Rbfe.SimulationProtocol) (beta : ℚ) (keep : List Int) :
    ∀ (states : List (Rbfe.InitialState X B)) (i : Nat)
      (prev : Option (List X × List B × List (List X → List B → List ℚ)))
      (acc res : Rbfe.EstimateAcc X B),
      (prev = none ↔ i = 0) →
      Rbfe.estimateLoop BAR protocol beta keep i prev acc states = .ok res →
      ∃ ds, Rbfe.pairDGs BAR beta protocol prev states = some ds ∧
        res.all_dGs = acc.all_dGs ++ ds
  | [], i, prev, acc, res => by
    intro _ h
    simp only [Rbfe.estimateLoop] at h
    rw [Except.ok.injEq] at h
    subst h
    exact ⟨[], by simp [Rbfe.pairDGs], by simp⟩
  | s :: rest, i, prev, acc, res => by
    intro hprev h
    simp only [Rbfe.estimateLoop] at h
    rcases hs : Rbfe.sample s protocol with _ | ⟨f, b⟩
    all_goals rw [hs] at h
    · exact absurd h (by simp)
    · dsimp only at h
      by_cases h0 : 0 < i
      · simp only [h0, if_pos, reduceIte] at h
        rcases prev with _ | ⟨pf, pb, pfns⟩
        · exact absurd (hprev.mp rfl) (by omega)
        dsimp only at h
        split at h
        · exact absurd h (by simp)
        · rename_i hlen0
          obtain ⟨ds', hret, hdg⟩ := estimateLoop_dGs BAR protocol beta keep rest (i + 1)
            _ _ res (by simp) h
          refine ⟨(BAR (Rbfe.sumPointwise ((pfns.zip
              (Rbfe.get_batch_U_fns s.potentials s.lamb)).map
                (fun pc => Rbfe.fwd_delta_u beta pc.2 pc.1 pf pb)))
            (Rbfe.sumPointwise ((pfns.zip (Rbfe.get_batch_U_fns s.potentials s.lamb)).map
                (fun pc => Rbfe.rev_delta_u beta pc.2 pc.1 f b)))).1 / beta :: ds', ?_, ?_⟩
          · simp only [Rbfe.pairDGs]
            rw [hs]
            dsimp only
            rw [if_neg hlen0, hret]
          · rw [hdg]
            by_cases hmem : (i : Int) ∈ keep
            · simp [hmem]
            · simp [hmem]
      · simp only [h0, if_neg, reduceIte] at h
        have hi0 : i = 0 := by omega
        have hpnone : prev = none := hprev.mpr hi0
        subst hpnone
        obtain ⟨ds', hret, hdg⟩ := estimateLoop_dGs BAR protocol beta keep rest (i + 1)
          _ _ res (by simp) h
        refine ⟨ds', ?_, ?_⟩
        · simp only [Rbfe.pairDGs]
          rw [hs]
          dsimp only
          exact hret
        · rw [hdg]
          by_cases hmem : (i : Int) ∈ keep
          · simp [hmem]
          · simp [hmem]

/-- Claim C5: for every adjacent pair, the delta-G appended to the reported
totals (`all_dGs`) is BAR applied to the works of the component-summed
energies, divided by beta.  Part one: the free_energy estimator's `all_dGs`
are exactly the summed-works BAR estimates of the runner's pair tensors.
Part two: the reported totals and errors are independent of the per-component
diagnostic functions (`df_err_from_ukln`, `pair_overlap_from_ukln`) — the
per-component results are diagnostics only.  Part three: summing
per-component estimates does not in general agree with estimating the summed
works, so the two paths do not commute and the choice matters.  Part four:
the rbfe estimator's `all_dGs` satisfy the same summed-works specification
(`pairDGs`). -/
theorem authoritative_total_from_summed_works :
    (∀ {X B : Type} (bar : List ℚ → List ℚ → ℚ × ℚ) (dferr ovl : FreeEnergy.UKln → ℚ)
        (isFin : X → Bool) (states : List (FreeEnergy.InitialState X B))
        (mdp : FreeEnergy.MDParams) (T : ℚ) (keep : List Int)
        (u : List (List FreeEnergy.UKln)) (sf : List (List X)) (sb : List (List B))
        (r : FreeEnergy.SimulationResult X B),
      FreeEnergy.run_sequential_sims_given_initial_states isFin states mdp T keep =
          some (u, sf, sb) →
      FreeEnergy.estimate_free_energy_given_initial_states bar dferr ovl isFin states mdp T
          keep = some r →
      r.all_dGs = u.map (fun c =>
        (bar (FreeEnergy.w_fwd (FreeEnergy.sumComponents c))
          (FreeEnergy.w_rev (FreeEnergy.sumComponents c))).1 / (1 / (BOLTZ * T)))) ∧
    (∀ {X B : Type} (bar : List ℚ → List ℚ → ℚ × ℚ) (d₁ d₂ o₁ o₂ : FreeEnergy.UKln → ℚ)
        (isFin : X → Bool) (states : List (FreeEnergy.InitialState X B))
        (mdp : FreeEnergy.MDParams) (T : ℚ) (keep : List Int),
      (FreeEnergy.estimate_free_energy_given_initial_states bar d₁ o₁ isFin states mdp T
          keep).map (fun r => (r.all_dGs, r.all_errs)) =
        (FreeEnergy.estimate_free_energy_given_initial_states bar d₂ o₂ isFin states mdp T
          keep).map (fun r => (r.all_dGs, r.all_errs))) ∧
    (∃ (est : List ℚ → List ℚ → ℚ × ℚ) (c₁ c₂ : FreeEnergy.UKln),
      (est (FreeEnergy.w_fwd (FreeEnergy.sumComponents [c₁, c₂]))
          (FreeEnergy.w_rev (FreeEnergy.sumComponents [c₁, c₂]))).1 ≠
        (est (FreeEnergy.w_fwd c₁) (FreeEnergy.w_rev c₁)).1 +
          (est (FreeEnergy.w_fwd c₂) (FreeEnergy.w_rev c₂)).1) ∧
    (∀ {X B : Type} (BAR : List ℚ → List ℚ → ℚ × ℚ) (states : List (Rbfe.InitialState X B))
        (protocol : Rbfe.SimulationProtocol) (T : ℚ) (pfx : String) (keep : List Int)
        (r : Rbfe.SimulationResult X B),
      Rbfe.estimate_free_energy_given_initial_states BAR states protocol T pfx keep = .ok r →
      Rbfe.pairDGs BAR (1 / (BOLTZ * T)) protocol none states = some r.all_dGs) := by
  refine ⟨?_, ?_, ?_, ?_⟩
  · intro X B bar dferr ovl isFin states mdp T keep u sf sb r hrun h
    simp only [FreeEnergy.estimate_free_energy_given_initial_states] at h
    rw [hrun] at h
    dsimp only at h
    rw [Option.some.injEq] at h
    rw [← h]
    simp [List.map_map, Function.comp]
  · intro X B bar d₁ d₂ o₁ o₂ isFin states mdp T keep
    simp only [FreeEnergy.estimate_free_energy_given_initial_states]
    rcases hrun : FreeEnergy.run_sequential_sims_given_initial_states isFin states mdp T keep
      with _ | ⟨u, sf, sb⟩
    · rfl
    · rfl
  · refine ⟨fun _ _ => ((1 : ℚ), (0 : ℚ)), [], [], ?_⟩
    norm_num
  · intro X B BAR states protocol T pfx keep r h
    simp only [Rbfe.estimate_free_energy_given_initial_states] at h
    rcases states with _ | ⟨s0, rest⟩
    · exact absurd h (by simp)
    · simp only [List.head?] at h
      rcases hl : Rbfe.estimateLoop BAR protocol (1 / (BOLTZ * T)) keep 0 none
          ⟨[], [], [], []⟩ (s0 :: rest) with e | acc
      all_goals rw [hl] at h
      · exact absurd h (by simp)
      · simp only [Except.ok.injEq] at h
        obtain ⟨ds, hspec, hdg⟩ := estimateLoop_dGs BAR protocol (1 / (BOLTZ * T)) keep
          (s0 :: rest) 0 none _ acc (by simp) hl
        rw [hspec, ← h]
        simp only [List.nil_append] at hdg
        simp [hdg]

/-- Witness for C5: concrete two-window runs in both pipelines, with the
reported totals matching the summed-works specification. -/
theorem authoritative_total_from_summed_works_witness :
    ((FreeEnergy.SimulationResult.all_dGs
        ⟨[0 / (1 / (BOLTZ * 300))], [0 / (1 / (BOLTZ * 300))], [], [0], [], [], [],
          [witFE, witFE], ⟨1, 0, 1⟩⟩ : List ℚ) =
      ([[]] : List (List FreeEnergy.UKln)).map (fun c =>
        ((fun _ _ => ((0 : ℚ), (0 : ℚ))) (FreeEnergy.w_fwd (FreeEnergy.sumComponents c))
          (FreeEnergy.w_rev (FreeEnergy.sumComponents c))).1 / (1 / (BOLTZ * 300)))) ∧
    Rbfe.pairDGs (fun _ _ => ((0 : ℚ), (0 : ℚ))) (1 / (BOLTZ * 300)) ⟨1, 0, 1⟩ none
        [wit2Rbfe, wit2Rbfe] =
      some (Rbfe.SimulationResult.all_dGs
        ⟨[0 / (1 / (BOLTZ * 300))], [0 / (1 / (BOLTZ * 300))], [[0]], [[0]],
          [wit2Rbfe, wit2Rbfe], ⟨1, 0, 1⟩⟩) := by
  constructor
  · exact authoritative_total_from_summed_works.1 (fun _ _ => ((0 : ℚ), (0 : ℚ)))
      (fun _ => 0) (fun _ => 0) (fun _ => true) [witFE, witFE] ⟨1, 0, 1⟩ 300 []
      [[]] [] []
      ⟨[0 / (1 / (BOLTZ * 300))], [0 / (1 / (BOLTZ * 300))], [], [0], [], [], [],
        [witFE, witFE], ⟨1, 0, 1⟩⟩ rfl rfl
  · exact authoritative_total_from_summed_works.2.2.2 (fun _ _ => ((0 : ℚ), (0 : ℚ)))
      [wit2Rbfe, wit2Rbfe] ⟨1, 0, 1⟩ 300 "x" [0]
      ⟨[0 / (1 / (BOLTZ * 300))], [0 / (1 / (BOLTZ * 300))], [[0]], [[0]],
        [wit2Rbfe, wit2Rbfe], ⟨1, 0, 1⟩⟩ rfl

/-- A list of options with no `some` entry has zero held count. -/
theorem countP_isSome_eq_zero {α : Type} :
    ∀ (l : List (Option α)), (∀ j (o : α), l.get? j = some (some o) → False) →
      l.countP (fun o => o.isSome) = 0
  | [], _ => rfl
  | o :: t, h => by
    rcases o with _ | v
    · simp only [List.countP_cons, Option.isSome_none, cond_false, Nat.add_zero]
      exact countP_isSome_eq_zero t (fun j o hj => h (j + 1) o hj)
    · exact (h 0 v rfl).elim

/-- If every held slot is at one fixed position, at most one entry is held. -/
theorem countP_isSome_le_one {α : Type} :
    ∀ (l : List (Option α)) (a : Nat), (∀ j (o : α), l.get? j = some (some o) → j = a) →
      l.countP (fun o => o.isSome) ≤ 1
  | [], _, _ => by simp
  | o :: t, a, h => by
    rcases o with _ | v
    · simp only [List.countP_cons, Option.isSome_none, cond_false, Nat.add_zero]
      exact countP_isSome_le_one t (a - 1) (fun j o hj => by
        have := h (j + 1) o hj
        omega)
    · have ha : a = 0 := (h 0 v rfl).symm
      have hz : t.countP (fun o => o.isSome) = 0 := by
        refine countP_isSome_eq_zero t (fun j o hj => ?_)
        have := h (j + 1) o hj
        omega
      simp [List.countP_cons, hz]

/-- If every held slot is at one of two fixed positions, at most two entries
are held. -/
theorem countP_isSome_le_two {α : Type} :
    ∀ (l : List (Option α)) (a b : Nat),
      (∀ j (o : α), l.get? j = some (some o) → j = a ∨ j = b) →
      l.countP (fun o => o.isSome) ≤ 2
  | [], _, _, _ => by simp
  | o :: t, a, b, h => by
    rcases o with _ | v
    · simp only [List.countP_cons, Option.isSome_none, cond_false, Nat.add_zero]
      exact countP_isSome_le_two t (a - 1) (b - 1) (fun j o hj => by
        have := h (j + 1) o hj
        omega)
    · have h0 := h 0 v rfl
      have h1 : t.countP (fun o => o.isSome) ≤ 1 := by
        rcases h0 with h0 | h0
        · refine countP_isSome_le_one t (b - 1) (fun j o hj => ?_)
          have := h (j + 1) o hj
          omega
        · refine countP_isSome_le_one t (a - 1) (fun j o hj => ?_)
          have := h (j + 1) o hj
          omega
      have hc : (some v :: t).countP (fun o => o.isSome) =
          t.countP (fun o => o.isSome) + 1 := by
        simp [List.countP_cons]
      omega

/-- Reading back a just-written slot. -/
theorem tm_get?_set_self {α : Type} :
    ∀ (l : List α) (i : Nat) (v : α), i < l.length → (l.set i v).get? i = some v
  | [], i, v, h => absurd h (by simp)
  | a :: t, 0, v, _ => rfl
  | a :: t, i + 1, v, h => tm_get?_set_self t i v (by simpa using h)

/-- Writing one slot leaves the others unchanged. -/
theorem tm_get?_set_ne {α : Type} :
    ∀ (l : List α) (i j : Nat) (v : α), i ≠ j → (l.set i v).get? j = l.get? j
  | [], _, _, _, _ => by simp
  | a :: t, 0, 0, v, hne => absurd rfl hne
  | a :: t, 0, j + 1, v, _ => rfl
  | a :: t, i + 1, 0, v, _ => rfl
  | a :: t, i + 1, j + 1, v, hne => tm_get?_set_ne t i j v (by omega)

/-- Every slot of the all-`None` initial `tmp_states` is empty. -/
theorem tm_get?_replicate_none {α : Type} :
    ∀ (n j : Nat) (x : Option α), (List.replicate n (none : Option α)).get? j = some x →
      x = none
  | 0, j, x, h => by simp at h
  | n + 1, 0, x, h => by
    simp only [List.replicate_succ, List.get?_cons_zero, Option.some.injEq] at h
    exact h.symm
  | n + 1, j + 1, x, h => tm_get?_replicate_none n j x h

/-- After the eviction line of iteration `i`, a held slot can only be the
previous window `i - 1`. -/
theorem ts1_positions {α : Type} (tmp : List (Option α)) (i : Nat)
    (hinv : ∀ j (o : α), tmp.get? j = some (some o) → j + 1 = i ∨ j + 2 = i) :
    ∀ j (o : α), (if 2 ≤ i then tmp.set (i - 2) none else tmp).get? j = some (some o) →
      j + 1 = i := by
  intro j o hj
  by_cases h2 : 2 ≤ i
  · rw [if_pos h2] at hj
    by_cases hji : i - 2 = j
    · subst hji
      rcases Nat.lt_or_ge (i - 2) tmp.length with hlt | hge
      · rw [tm_get?_set_self _ _ _ hlt] at hj
        simp at hj
      · rw [List.get?_eq_none.mpr (by rwa [List.length_set])] at hj
        simp at hj
    · rw [tm_get?_set_ne _ _ _ _ hji] at hj
      rcases hinv j o hj with h | h
      · exact h
      · omega
  · rw [if_neg h2] at hj
    rcases hinv j o hj with h | h
    · exact h
    · omega

/-- After the assignment line of iteration `i`, a held slot is the current
window `i` or the previous window `i - 1`. -/
theorem ts2_positions {α : Type} (ts1 : List (Option α)) (i : Nat) (v : α)
    (h1 : ∀ j (o : α), ts1.get? j = some (some o) → j + 1 = i) :
    ∀ j (o : α), (ts1.set i (some v)).get? j = some (some o) → j = i ∨ j + 1 = i := by
  intro j o hj
  by_cases hji : i = j
  · exact Or.inl hji.symm
  · exact Or.inr (h1 j o (by rwa [tm_get?_set_ne _ _ _ _ hji] at hj))

/-- Every recorded `tmp_states` snapshot of the sequential runner holds at
most two `EnergyDecomposedState`s, given the entry invariant. -/
theorem runSeqLoop_trace_count {X B : Type} (isFin : X → Bool) (mdp : FreeEnergy.MDParams)
    (T : ℚ) (keep : List Int) :
    ∀ (states : List (FreeEnergy.InitialState X B)) (i : Nat) (acc : FreeEnergy.SeqAcc X B),
      (∀ j (o : FreeEnergy.EnergyDecomposedState X B),
        acc.tmp_states.get? j = some (some o) → j + 1 = i ∨ j + 2 = i) →
      ∀ snap ∈ (FreeEnergy.runSeqLoop isFin mdp T keep i acc states).2,
        snap.countP (fun o => o.isSome) ≤ 2
  | [], i, acc, hinv => by
    intro snap hsnap
    simp [FreeEnergy.runSeqLoop] at hsnap
  | s :: rest, i, acc, hinv => by
    intro snap hsnap
    simp only [FreeEnergy.runSeqLoop] at hsnap
    rcases hs : FreeEnergy.sample isFin s mdp none with _ | ⟨f, b⟩
    all_goals rw [hs] at hsnap
    · simp at hsnap
    · dsimp only at hsnap
      by_cases hmem : (i : Int) ∈ keep
      all_goals simp only [hmem, if_pos, if_neg, reduceIte] at hsnap
      all_goals {
        have hts1p := ts1_positions acc.tmp_states i hinv
        have hts2p := ts2_positions
          (if 2 ≤ i then acc.tmp_states.set (i - 2) none else acc.tmp_states) i
          ⟨f, b, FreeEnergy.get_batch_u_fns s.potentials T⟩ hts1p
        have hc1 : (if 2 ≤ i then acc.tmp_states.set (i - 2) none
            else acc.tmp_states).countP (fun o => o.isSome) ≤ 2 :=
          countP_isSome_le_two _ (i - 1) (i - 1) (fun j o hj => by
            have := hts1p j o hj
            omega)
        have hc2 : ((if 2 ≤ i then acc.tmp_states.set (i - 2) none
            else acc.tmp_states).set i
              (some ⟨f, b, FreeEnergy.get_batch_u_fns s.potentials T⟩)).countP
            (fun o => o.isSome) ≤ 2 :=
          countP_isSome_le_two _ i (i - 1) (fun j o hj => by
            have := hts2p j o hj
            omega)
        have hihinv : ∀ j (o : FreeEnergy.EnergyDecomposedState X B),
            ((if 2 ≤ i then acc.tmp_states.set (i - 2) none else acc.tmp_states).set i
              (some ⟨f, b, FreeEnergy.get_batch_u_fns s.potentials T⟩)).get? j =
                some (some o) → j + 1 = i + 1 ∨ j + 2 = i + 1 := fun j o hj => by
          have := hts2p j o hj
          omega
        by_cases h0 : 0 < i
        · simp only [h0, if_pos, reduceIte] at hsnap
          split at hsnap
          · try dsimp only at hsnap
            simp only [List.mem_cons] at hsnap
            rcases hsnap with rfl | hsnap
            · exact hc1
            rcases hsnap with rfl | hsnap
            · exact hc2
            · exact runSeqLoop_trace_count isFin mdp T keep rest (i + 1) _ hihinv snap hsnap
          · simp only [List.mem_cons, List.not_mem_nil, or_false] at hsnap
            rcases hsnap with rfl | rfl
            · exact hc1
            · exact hc2
        · simp only [h0, if_neg, reduceIte] at hsnap
          try dsimp only at hsnap
          simp only [List.mem_cons] at hsnap
          rcases hsnap with rfl | hsnap
          · exact hc1
          rcases hsnap with rfl | hsnap
          · exact hc2
          · exact runSeqLoop_trace_count isFin mdp T keep rest (i + 1) _ hihinv snap hsnap
      }

/-- In the recorded trace, the snapshot taken right after the eviction line
of iteration `m` (trace position `2m`) has window `m - 2` freed. -/
theorem runSeqLoop_trace_freed {X B : Type} (isFin : X → Bool) (mdp : FreeEnergy.MDParams)
    (T : ℚ) (keep : List Int) :
    ∀ (states : List (FreeEnergy.InitialState X B)) (i : Nat) (acc : FreeEnergy.SeqAcc X B),
      i + states.length ≤ acc.tmp_states.length →
      ∀ (k : Nat) (snap : List (Option (FreeEnergy.EnergyDecomposedState X B))),
        (FreeEnergy.runSeqLoop isFin mdp T keep i acc states).2.get? (2 * k) = some snap →
        2 ≤ i + k → snap.get? (i + k - 2) = some none
  | [], i, acc, hlen => by
    intro k snap h _
    simp [FreeEnergy.runSeqLoop] at h
  | s :: rest, i, acc, hlen => by
    intro k snap h h2
    simp only [FreeEnergy.runSeqLoop] at h
    rcases hs : FreeEnergy.sample isFin s mdp none with _ | ⟨f, b⟩
    all_goals rw [hs] at h
    · simp at h
    · dsimp only at h
      by_cases hmem : (i : Int) ∈ keep
      all_goals simp only [hmem, if_pos, if_neg, reduceIte] at h
      all_goals {
        have hlenacc : i + (rest.length + 1) ≤ acc.tmp_states.length := by
          simpa using hlen
        have hlen2 : ∀ (v : Option (FreeEnergy.EnergyDecomposedState X B)),
            ((if 2 ≤ i then acc.tmp_states.set (i - 2) none else acc.tmp_states).set i
              v).length = acc.tmp_states.length := by
          intro v
          split
          · simp [List.length_set]
          · simp [List.length_set]
        have hts1get : 2 ≤ i →
            (if 2 ≤ i then acc.tmp_states.set (i - 2) none
              else acc.tmp_states).get? (i - 2) = some none := by
          intro h2i
          rw [if_pos h2i]
          exact tm_get?_set_self _ _ _ (by omega)
        by_cases h0 : 0 < i
        · simp only [h0, if_pos, reduceIte] at h
          split at h
          · try dsimp only at h
            rcases k with _ | k
            · simp only [Nat.mul_zero, List.get?_cons_zero, Option.some.injEq] at h
              subst h
              have h2i : 2 ≤ i := by omega
              have : i + 0 - 2 = i - 2 := by omega
              rw [this]
              exact hts1get h2i
            · have hidx : 2 * (k + 1) = 2 * k + 1 + 1 := by ring
              rw [hidx, List.get?_cons_succ, List.get?_cons_succ] at h
              have hidx2 : i + (k + 1) - 2 = (i + 1) + k - 2 := by omega
              rw [hidx2]
              exact runSeqLoop_trace_freed isFin mdp T keep rest (i + 1) _
                (by rw [hlen2]; omega) k snap h (by omega)
          · rcases k with _ | k
            · simp only [Nat.mul_zero, List.get?_cons_zero, Option.some.injEq] at h
              subst h
              have h2i : 2 ≤ i := by omega
              have : i + 0 - 2 = i - 2 := by omega
              rw [this]
              exact hts1get h2i
            · have hidx : 2 * (k + 1) = 2 * k + 1 + 1 := by ring
              rw [hidx, List.get?_cons_succ, List.get?_cons_succ] at h
              simp at h
        · simp only [h0, if_neg, reduceIte] at h
          try dsimp only at h
          rcases k with _ | k
          · simp only [Nat.mul_zero, List.get?_cons_zero, Option.some.injEq] at h
            subst h
            have h2i : 2 ≤ i := by omega
            have : i + 0 - 2 = i - 2 := by omega
            rw [this]
            exact hts1get h2i
          · have hidx : 2 * (k + 1) = 2 * k + 1 + 1 := by ring
            rw [hidx, List.get?_cons_succ, List.get?_cons_succ] at h
            have hidx2 : i + (k + 1) - 2 = (i + 1) + k - 2 := by omega
            rw [hidx2]
            exact runSeqLoop_trace_freed isFin mdp T keep rest (i + 1) _
              (by rw [hlen2]; omega) k snap h (by omega)
      }

/-- Claim C1: sliding-window memory invariant of the sequential runner.
During `run_sequential_sims_given_initial_states`, before constructing the
`EnergyDecomposedState` for window `i` the runner frees the state at index
`i - 2` when `i >= 2` (part one: in the ghost trace, the snapshot recorded
after the eviction line of iteration `i` — trace position `2i` — has slot
`i - 2` equal to `None`), and at every mutation point of the loop at most 2
`EnergyDecomposedState`s are held in `tmp_states`, independent of the ladder
length (part two). -/
theorem sliding_window_memory_invariant :
    (∀ {X B : Type} (isFin : X → Bool) (states : List (FreeEnergy.InitialState X B))
        (mdp : FreeEnergy.MDParams) (T : ℚ) (keep : List Int) (i : Nat)
        (snap : List (Option (FreeEnergy.EnergyDecomposedState X B))),
      (FreeEnergy.run_sequential_sims_trace isFin states mdp T keep).2.get? (2 * i) =
          some snap →
      2 ≤ i → snap.get? (i - 2) = some none) ∧
    (∀ {X B : Type} (isFin : X → Bool) (states : List (FreeEnergy.InitialState X B))
        (mdp : FreeEnergy.MDParams) (T : ℚ) (keep : List Int)
        (snap : List (Option (FreeEnergy.EnergyDecomposedState X B))),
      snap ∈ (FreeEnergy.run_sequential_sims_trace isFin states mdp T keep).2 →
      snap.countP (fun o => o.isSome) ≤ 2) := by
  constructor
  · intro X B isFin states mdp T keep i snap h h2
    simp only [FreeEnergy.run_sequential_sims_trace] at h
    split at h
    · simp at h
    · have := runSeqLoop_trace_freed isFin mdp T keep states 0
        ⟨[], [], List.replicate states.length none, []⟩ (by simp) i snap (by simpa using h)
        (by omega)
      simpa using this
  · intro X B isFin states mdp T keep snap h
    simp only [FreeEnergy.run_sequential_sims_trace] at h
    split at h
    · simp at h
    · exact runSeqLoop_trace_count isFin mdp T keep states 0
        ⟨[], [], List.replicate states.length none, []⟩
        (fun j o hj => absurd (tm_get?_replicate_none _ _ _ hj) (by simp)) snap
        (by simpa using h)

/-- Witness for C1: in a concrete three-window run, the snapshot after the
eviction line of iteration 2 has window 0 freed, and a recorded snapshot
holding the two live windows has held count at most 2. -/
theorem sliding_window_memory_invariant_witness :
    (([none, some (⟨[0], [0], []⟩ : FreeEnergy.EnergyDecomposedState Int Int),
        none] : List (Option (FreeEnergy.EnergyDecomposedState Int Int))).get? 0 =
      some none) ∧
    (([none, some (⟨[0], [0], []⟩ : FreeEnergy.EnergyDecomposedState Int Int),
        some ⟨[0], [0], []⟩] :
          List (Option (FreeEnergy.EnergyDecomposedState Int Int))).countP
        (fun o => o.isSome) ≤ 2) := by
  constructor
  · exact sliding_window_memory_invariant.1 (fun _ => true) [witFE, witFE, witFE]
      ⟨1, 0, 1⟩ 300 [] 2 [none, some ⟨[0], [0], []⟩, none] rfl (by norm_num)
  · refine sliding_window_memory_invariant.2 (fun _ => true) [witFE, witFE, witFE]
      ⟨1, 0, 1⟩ 300 [] [none, some ⟨[0], [0], []⟩, some ⟨[0], [0], []⟩] ?_
    have htr : (FreeEnergy.run_sequential_sims_trace (fun (_ : Int) => true)
        [witFE, witFE, witFE] ⟨1, 0, 1⟩ 300 []).2 =
        [[none, none, none], [some ⟨[0], [0], []⟩, none, none],
         [some ⟨[0], [0], []⟩, none, none], [some ⟨[0], [0], []⟩, some ⟨[0], [0], []⟩, none],
         [none, some ⟨[0], [0], []⟩, none],
         [none, some ⟨[0], [0], []⟩, some ⟨[0], [0], []⟩]] := rfl
    rw [htr]
    simp
